import Mathlib

/-!
Verification of the pan-node repository core against its specification.

The JavaScript source is shallowly embedded:
* a JS `Map` (insertion-ordered, unique keys) becomes an association list
  `List (String × α)` with first-match lookup, in-place replacement on `set`,
  and entry removal on `delete`;
* a JS `Set` of strings becomes a `List String` where `add` appends only when
  the element is absent and `delete` removes it;
* exceptions become `Except` / explicit error components;
* the internal message bus and socket writes become explicit effect lists.
-/

namespace Pan

/-! ## JS Map and Set primitives -/

/-- First-match lookup in an association list, the shape of `Map.get`. -/
def mapGet (l : List (String × α)) (k : String) : Option α :=
  match l with
  | [] => none
  | (k', v) :: t => if k' = k then some v else mapGet t k

/-- `Map.set`: replace the first entry with the key in place, else append. -/
def mapSet (l : List (String × α)) (k : String) (v : α) : List (String × α) :=
  match l with
  | [] => [(k, v)]
  | (k', v') :: t => if k' = k then (k, v) :: t else (k', v') :: mapSet t k v

/-- `Map.delete`: drop every entry with the key (at most one exists). -/
def mapDelete (l : List (String × α)) (k : String) : List (String × α) :=
  match l with
  | [] => []
  | (k', v) :: t => if k' = k then mapDelete t k else (k', v) :: mapDelete t k

/-- `Map.has`. -/
def mapHas (l : List (String × α)) (k : String) : Bool :=
  (mapGet l k).isSome

/-- `Map.keys()` in iteration order. -/
def mapKeys (l : List (String × α)) : List String :=
  l.map Prod.fst

/-- `Set.add`: append only when absent (JS sets keep insertion order). -/
def setAdd (l : List String) (x : String) : List String :=
  if x ∈ l then l else l ++ [x]

/-- `Set.delete`. -/
def setDelete (l : List String) (x : String) : List String :=
  match l with
  | [] => []
  | y :: t => if y = x then setDelete t x else y :: setDelete t x

@[simp] theorem mapGet_nil (k : String) : mapGet ([] : List (String × α)) k = none := rfl

@[simp] theorem mapGet_set_self (l : List (String × α)) (k : String) (v : α) :
    mapGet (mapSet l k v) k = some v := by
  induction l with
  | nil => simp [mapGet, mapSet]
  | cons e t ih =>
    obtain ⟨k', v'⟩ := e
    by_cases h : k' = k
    · simp [mapGet, mapSet, h]
    · simp [mapGet, mapSet, h, ih]

theorem mapGet_set_ne (l : List (String × α)) {k k' : String} (v : α) (h : k ≠ k') :
    mapGet (mapSet l k v) k' = mapGet l k' := by
  induction l with
  | nil => simp [mapGet, mapSet, h]
  | cons e t ih =>
    obtain ⟨k₀, v₀⟩ := e
    by_cases h₀ : k₀ = k
    · subst h₀; simp [mapGet, mapSet, h]
    · simp only [mapSet, if_neg h₀, mapGet]
      by_cases h₁ : k₀ = k'
      · simp [h₁]
      · simp [h₁, ih]

@[simp] theorem mapGet_delete_self (l : List (String × α)) (k : String) :
    mapGet (mapDelete l k) k = none := by
  induction l with
  | nil => simp [mapDelete]
  | cons e t ih =>
    obtain ⟨k₀, v₀⟩ := e
    by_cases h₀ : k₀ = k
    · simp [mapDelete, h₀, ih]
    · simp [mapDelete, mapGet, h₀, ih]

theorem mapGet_delete_ne (l : List (String × α)) {k k' : String} (h : k ≠ k') :
    mapGet (mapDelete l k) k' = mapGet l k' := by
  induction l with
  | nil => rfl
  | cons e t ih =>
    obtain ⟨k₀, v₀⟩ := e
    by_cases h₀ : k₀ = k
    · subst h₀
      simp [mapDelete, mapGet, h, ih]
    · by_cases h₁ : k₀ = k'
      · subst h₁
        simp [mapDelete, mapGet, h₀]
      · simp [mapDelete, mapGet, h₀, h₁, ih]

/-- Setting a key to the value it already holds does not change the list. -/
theorem mapSet_get_self {l : List (String × α)} {k : String} {v : α}
    (h : mapGet l k = some v) : mapSet l k v = l := by
  induction l with
  | nil => simp [mapGet] at h
  | cons e t ih =>
    obtain ⟨k₀, v₀⟩ := e
    by_cases h₀ : k₀ = k
    · subst h₀
      simp [mapGet] at h
      subst h
      simp [mapSet]
    · simp only [mapGet, if_neg h₀] at h
      simp [mapSet, h₀, ih h]

theorem mapSet_ne_nil (l : List (String × α)) (k : String) (v : α) :
    mapSet l k v ≠ [] := by
  cases l with
  | nil => simp [mapSet]
  | cons e t =>
    obtain ⟨k₀, v₀⟩ := e
    by_cases h₀ : k₀ = k <;> simp [mapSet, h₀]

/-- If deleting a key empties the map, every other key was already absent. -/
theorem mapGet_eq_none_of_delete_nil {l : List (String × α)} {k k' : String}
    (h : mapDelete l k = []) (hne : k' ≠ k) : mapGet l k' = none := by
  induction l with
  | nil => rfl
  | cons e t ih =>
    obtain ⟨k₀, v₀⟩ := e
    by_cases h₀ : k₀ = k
    · subst h₀
      simp only [mapDelete, if_pos rfl] at h
      have := ih h
      simpa [mapGet, fun hk : k₀ = k' => hne (hk ▸ rfl)] using
        (by simp [mapGet, Ne.symm hne, this] : mapGet ((k₀, v₀) :: t) k' = none)
    · exfalso
      simp [mapDelete, h₀] at h

theorem mapGet_isSome_iff_mem_keys (l : List (String × α)) (k : String) :
    (mapGet l k).isSome ↔ k ∈ mapKeys l := by
  induction l with
  | nil => simp [mapKeys]
  | cons e t ih =>
    obtain ⟨k₀, v₀⟩ := e
    by_cases h₀ : k₀ = k
    · simp [mapGet, mapKeys, h₀]
    · simp [mapGet, mapKeys, h₀, ih, Ne.symm h₀]

@[simp] theorem mapKeys_nil_iff (l : List (String × α)) :
    mapKeys l = [] ↔ l = [] := by
  cases l <;> simp [mapKeys]

theorem mem_keys_mapDelete {l : List (String × α)} {k k' : String}
    (h : k' ∈ mapKeys (mapDelete l k)) : k' ∈ mapKeys l ∧ k' ≠ k := by
  induction l with
  | nil => simp [mapDelete, mapKeys] at h
  | cons e t ih =>
    obtain ⟨k₀, v₀⟩ := e
    by_cases h₀ : k₀ = k
    · subst h₀
      simp only [mapDelete, if_pos rfl] at h
      obtain ⟨h₁, h₂⟩ := ih h
      exact ⟨by simp [mapKeys] at h₁ ⊢; exact Or.inr h₁, h₂⟩
    · simp only [mapDelete, if_neg h₀, mapKeys, List.map_cons, List.mem_cons] at h
      rcases h with h | h
      · exact ⟨by simp [mapKeys, h], by simpa [h] using h₀⟩
      · obtain ⟨h₁, h₂⟩ := ih h
        exact ⟨by simp [mapKeys] at h₁ ⊢; exact Or.inr h₁, h₂⟩

@[simp] theorem setAdd_mem (l : List String) (x y : String) :
    y ∈ setAdd l x ↔ y ∈ l ∨ y = x := by
  by_cases h : x ∈ l
  · simp only [setAdd, if_pos h]
    constructor
    · exact Or.inl
    · rintro (hy | rfl) <;> [exact hy; exact h]
  · simp [setAdd, if_neg h]

@[simp] theorem setDelete_mem (l : List String) (x y : String) :
    y ∈ setDelete l x ↔ y ∈ l ∧ y ≠ x := by
  induction l with
  | nil => simp [setDelete]
  | cons a t ih =>
    by_cases h : a = x
    · subst h
      simp only [setDelete, if_pos rfl]
      constructor
      · intro hy
        exact ⟨List.mem_cons_of_mem _ (ih.mp hy).1, (ih.mp hy).2⟩
      · rintro ⟨hy, hne⟩
        rcases List.mem_cons.mp hy with rfl | hy
        · exact absurd rfl hne
        · exact ih.mpr ⟨hy, hne⟩
    · simp only [setDelete, if_neg h, List.mem_cons, ih]
      constructor
      · rintro (rfl | ⟨hy, hne⟩)
        · exact ⟨Or.inl rfl, h⟩
        · exact ⟨Or.inr hy, hne⟩
      · rintro ⟨rfl | hy, hne⟩
        · exact Or.inl rfl
        · exact Or.inr ⟨hy, hne⟩

theorem setAdd_nodup {l : List String} (h : l.Nodup) (x : String) :
    (setAdd l x).Nodup := by
  by_cases hx : x ∈ l
  · simpa [setAdd, hx] using h
  · simp only [setAdd, if_neg hx]
    refine List.Nodup.append h (List.nodup_singleton x) ?_
    intro a ha hb
    simp only [List.mem_singleton] at hb
    subst hb
    exact hx ha

theorem setDelete_nodup {l : List String} (h : l.Nodup) (x : String) :
    (setDelete l x).Nodup := by
  induction l with
  | nil => simp [setDelete]
  | cons a t ih =>
    obtain ⟨ha, ht⟩ := List.nodup_cons.mp h
    by_cases hax : a = x
    · simpa [setDelete, hax] using ih ht
    · simp only [setDelete, if_neg hax, List.nodup_cons]
      exact ⟨fun hmem => ha ((setDelete_mem t x a).mp hmem).1, ih ht⟩

theorem setDelete_of_not_mem {l : List String} {x : String} (h : x ∉ l) :
    setDelete l x = l := by
  induction l with
  | nil => rfl
  | cons a t ih =>
    simp only [List.mem_cons, not_or] at h
    have hax : a ≠ x := fun heq => h.1 heq.symm
    simp [setDelete, hax, ih h.2]

theorem setAdd_ne_nil (l : List String) (x : String) : setAdd l x ≠ [] := by
  by_cases h : x ∈ l
  · simp only [setAdd, if_pos h]
    intro hl
    subst hl
    simp at h
  · simp [setAdd, if_neg h]

/-! ## Group manager (src/agent/groupManager.js)

State: `groups : Map<groupId, Map<msgType, Set<connId>>>` and the inverse
index `agentSubscriptions : Map<connId, Map<groupId, Set<msgType>>>`.
-/

/-- A JS `Set` of connection ids. -/
abbrev ConnSet := List String

/-- A JS `Set` of message types. -/
abbrev MsgSet := List String

/-- Inner map of a group: msgType → Set(connIds). -/
abbrev GroupMap := List (String × ConnSet)

/-- Inner map of an agent: groupId → Set(msgTypes). -/
abbrev SubMap := List (String × MsgSet)

/-- The two closure-captured maps of `groupManager.initialize`. -/
structure GMState where
  groups : List (String × GroupMap)
  agentSubscriptions : List (String × SubMap)
  deriving Repr, DecidableEq

/-- The fresh state created by `initialize` (both maps empty). -/
def emptyGM : GMState := ⟨[], []⟩

/-- `MAX_MSG_TYPES` from groupManager.js. -/
def MAX_MSG_TYPES : Nat := 100

/-- One iteration of the `msgTypes.forEach` body of `joinGroup`: ensure the
group map has a set for the msg type, add the conn to it, and add the msg
type to the agent's existing-types set. -/
def joinStep (connId : String) (p : GroupMap × MsgSet) (msgType : String) :
    GroupMap × MsgSet :=
  (mapSet p.1 msgType (setAdd ((mapGet p.1 msgType).getD []) connId),
   setAdd p.2 msgType)

/-- `joinGroup(connId, groupId, msgTypes)`.  Returns the updated state and
`some errorMessage` when the call throws.  As in the source, when the
100-msg-type cap is exceeded the error is thrown only after every addition
has been applied, so the partially (fully) updated state stands. -/
def joinGroup (st : GMState) (connId groupId : String) (msgTypes : List String) :
    GMState × Option String :=
  if msgTypes.isEmpty then
    (st, some "msgTypes must be a non-empty array")
  else
    let groupMap := (mapGet st.groups groupId).getD []
    let agentGroupSubs := (mapGet st.agentSubscriptions connId).getD []
    let existingTypes := (mapGet agentGroupSubs groupId).getD []
    let r := msgTypes.foldl (joinStep connId) (groupMap, existingTypes)
    let st' : GMState :=
      { groups := mapSet st.groups groupId r.1,
        agentSubscriptions :=
          mapSet st.agentSubscriptions connId (mapSet agentGroupSubs groupId r.2) }
    if r.2.length > MAX_MSG_TYPES then
      (st', some "Exceeded max 100 msg_types for this agent in this group")
    else
      (st', none)

/-- One iteration of the `for (const msgType of msgTypes)` body of
`leaveGroup`: remove the conn from the set for the msg type and prune the
set when it becomes empty. -/
def leaveStep (connId : String) (g : GroupMap) (msgType : String) : GroupMap :=
  match mapGet g msgType with
  | some s =>
      let s' := setDelete s connId
      if s'.isEmpty then mapDelete g msgType else mapSet g msgType s'
  | none => g

/-- `leaveGroup(connId, groupId)`. -/
def leaveGroup (st : GMState) (connId groupId : String) : GMState :=
  match mapGet st.agentSubscriptions connId, mapGet st.groups groupId with
  | some agentGroupSubs, some groupMap =>
    let r : GroupMap × SubMap :=
      match mapGet agentGroupSubs groupId with
      | some msgTypes =>
          (msgTypes.foldl (leaveStep connId) groupMap,
           mapDelete agentGroupSubs groupId)
      | none => (groupMap, agentGroupSubs)
    { groups :=
        if r.1.isEmpty then mapDelete st.groups groupId
        else mapSet st.groups groupId r.1,
      agentSubscriptions :=
        if r.2.isEmpty then mapDelete st.agentSubscriptions connId
        else mapSet st.agentSubscriptions connId r.2 }
  | _, _ => st

/-- `getGroupRecipients(groupId, msgType)`; absent entries yield the empty
set (the source's `groupMap?.get(msgType) || new Set()`). -/
def getGroupRecipients (st : GMState) (groupId msgType : String) : ConnSet :=
  ((mapGet st.groups groupId).bind (fun gm => mapGet gm msgType)).getD []

/-- `getAgentGroups(connId)`. -/
def getAgentGroups (st : GMState) (connId : String) : List String :=
  match mapGet st.agentSubscriptions connId with
  | some subs => mapKeys subs
  | none => []

/-- `removeAgentFromAllGroups(connId)`: snapshot the group list first, then
leave each group. -/
def removeAgentFromAllGroups (st : GMState) (connId : String) : GMState :=
  (getAgentGroups st connId).foldl (fun s groupId => leaveGroup s connId groupId) st

/-- The inverse-index set `agent_subs[connId][groupId]`, empty when either
entry is absent. -/
def subsOf (st : GMState) (connId groupId : String) : MsgSet :=
  ((mapGet st.agentSubscriptions connId).bind (fun sm => mapGet sm groupId)).getD []

/-! ### Characterizing the joinGroup / leaveGroup folds -/

theorem mapGet_mapSet (l : List (String × α)) (k : String) (v : α) (k' : String) :
    mapGet (mapSet l k v) k' = if k = k' then some v else mapGet l k' := by
  by_cases h : k = k'
  · subst h; simp
  · simp [mapGet_set_ne l v h, h]

theorem mapGet_mapDelete (l : List (String × α)) (k k' : String) :
    mapGet (mapDelete l k) k' = if k = k' then none else mapGet l k' := by
  by_cases h : k = k'
  · subst h; simp
  · simp [mapGet_delete_ne l h, h]

theorem setAdd_idem (s : List String) (x : String) :
    setAdd (setAdd s x) x = setAdd s x := by
  by_cases h : x ∈ s
  · simp [setAdd, h]
  · simp [setAdd, h]

/-- The group-map component of one `joinGroup` iteration. -/
def joinFoldG (connId : String) (g : GroupMap) (msgType : String) : GroupMap :=
  mapSet g msgType (setAdd ((mapGet g msgType).getD []) connId)

theorem foldl_joinStep_eq (connId : String) (l : List String)
    (g₀ : GroupMap) (s₀ : MsgSet) :
    l.foldl (joinStep connId) (g₀, s₀) =
      (l.foldl (joinFoldG connId) g₀, l.foldl setAdd s₀) := by
  induction l generalizing g₀ s₀ with
  | nil => rfl
  | cons a t ih => simpa [joinStep, joinFoldG] using ih _ _

theorem mem_foldl_setAdd (l : List String) (s₀ : MsgSet) (x : String) :
    x ∈ l.foldl setAdd s₀ ↔ x ∈ s₀ ∨ x ∈ l := by
  induction l generalizing s₀ with
  | nil => simp
  | cons a t ih =>
    simp only [List.foldl_cons, ih, setAdd_mem, List.mem_cons]
    tauto

theorem nodup_foldl_setAdd (l : List String) {s₀ : MsgSet} (h : s₀.Nodup) :
    (l.foldl setAdd s₀).Nodup := by
  induction l generalizing s₀ with
  | nil => exact h
  | cons a t ih => exact ih (setAdd_nodup h a)

theorem foldl_setAdd_ne_nil {l : List String} (h : l ≠ []) (s₀ : MsgSet) :
    l.foldl setAdd s₀ ≠ [] := by
  obtain ⟨x, hx⟩ := List.exists_mem_of_ne_nil l h
  exact List.ne_nil_of_mem ((mem_foldl_setAdd l s₀ x).mpr (Or.inr hx))

theorem mapGet_foldl_joinFoldG (connId : String) (l : List String)
    (g₀ : GroupMap) (m : String) :
    mapGet (l.foldl (joinFoldG connId) g₀) m =
      if m ∈ l then some (setAdd ((mapGet g₀ m).getD []) connId)
      else mapGet g₀ m := by
  induction l generalizing g₀ with
  | nil => simp
  | cons a t ih =>
    have hstep : mapGet (joinFoldG connId g₀ a) m =
        if a = m then some (setAdd ((mapGet g₀ m).getD []) connId)
        else mapGet g₀ m := by
      by_cases ha : a = m
      · subst ha; simp [joinFoldG]
      · simp [joinFoldG, mapGet_set_ne _ _ ha, ha]
    rw [List.foldl_cons, ih]
    by_cases hm : m ∈ t
    · rw [if_pos hm, if_pos (List.mem_cons_of_mem a hm), hstep]
      by_cases ha : a = m
      · simp [ha, setAdd_idem]
      · simp [ha]
    · rw [if_neg hm, hstep]
      by_cases ha : a = m
      · subst ha
        simp
      · have hma : m ∉ a :: t := fun hmem => by
          rcases List.mem_cons.mp hmem with rfl | hmem'
          · exact ha rfl
          · exact hm hmem'
        rw [if_neg ha, if_neg hma]

/-- The effect of removing a conn from an optional recipient set, with
empty-set pruning (the body of the `leaveGroup` loop). -/
def delConn (connId : String) (o : Option ConnSet) : Option ConnSet :=
  o.bind (fun s =>
    let s' := setDelete s connId
    if s'.isEmpty then none else some s')

theorem delConn_idem (connId : String) (o : Option ConnSet) :
    delConn connId (delConn connId o) = delConn connId o := by
  cases o with
  | none => rfl
  | some s =>
    simp only [delConn, Option.bind_some]
    by_cases h : setDelete s connId = []
    · simp [h]
    · have hni : connId ∉ setDelete s connId := by simp
      simp [h, setDelete_of_not_mem hni]

theorem mapGet_leaveStep (connId : String) (g₀ : GroupMap) (a m : String) :
    mapGet (leaveStep connId g₀ a) m =
      if a = m then delConn connId (mapGet g₀ m) else mapGet g₀ m := by
  by_cases ha : a = m
  · subst ha
    cases hg : mapGet g₀ a with
    | none => simp [leaveStep, hg, delConn]
    | some s =>
      by_cases h : setDelete s connId = []
      · simp [leaveStep, hg, h, delConn]
      · simp [leaveStep, hg, h, delConn]
  · cases hg : mapGet g₀ a with
    | none => simp [leaveStep, hg, ha]
    | some s =>
      by_cases h : setDelete s connId = []
      · simp [leaveStep, hg, h, mapGet_mapDelete, ha]
      · simp [leaveStep, hg, h, mapGet_mapSet, ha]

theorem mapGet_foldl_leaveStep (connId : String) (l : List String)
    (g₀ : GroupMap) (m : String) :
    mapGet (l.foldl (leaveStep connId) g₀) m =
      if m ∈ l then delConn connId (mapGet g₀ m) else mapGet g₀ m := by
  induction l generalizing g₀ with
  | nil => simp
  | cons a t ih =>
    rw [List.foldl_cons, ih, mapGet_leaveStep]
    by_cases hm : m ∈ t
    · rw [if_pos hm, if_pos (List.mem_cons_of_mem a hm)]
      by_cases ha : a = m
      · simp [ha, delConn_idem]
      · simp [ha]
    · rw [if_neg hm]
      by_cases ha : a = m
      · subst ha
        simp
      · simp [List.mem_cons, hm, Ne.symm ha, ha]

theorem mapKeys_mapSet (l : List (String × α)) (k : String) (v : α) :
    mapKeys (mapSet l k v) =
      if k ∈ mapKeys l then mapKeys l else mapKeys l ++ [k] := by
  induction l with
  | nil => simp [mapSet, mapKeys]
  | cons e t ih =>
    obtain ⟨k₀, v₀⟩ := e
    by_cases h₀ : k₀ = k
    · subst h₀
      simp [mapSet, mapKeys]
    · have hcons : mapKeys ((k₀, v₀) :: mapSet t k v) = k₀ :: mapKeys (mapSet t k v) := rfl
      have hcons2 : mapKeys ((k₀, v₀) :: t) = k₀ :: mapKeys t := rfl
      simp only [mapSet, if_neg h₀]
      rw [hcons, hcons2, ih]
      by_cases hk : k ∈ mapKeys t
      · rw [if_pos hk, if_pos (List.mem_cons_of_mem _ hk)]
      · have hknot : k ∉ k₀ :: mapKeys t := fun hmem => by
          rcases List.mem_cons.mp hmem with heq | hmem'
          · exact h₀ heq.symm
          · exact hk hmem'
        rw [if_neg hk, if_neg hknot]
        rfl

theorem mapKeys_mapSet_nodup {l : List (String × α)} (h : (mapKeys l).Nodup)
    (k : String) (v : α) : (mapKeys (mapSet l k v)).Nodup := by
  rw [mapKeys_mapSet]
  by_cases hk : k ∈ mapKeys l
  · simpa [hk] using h
  · simp only [if_neg hk]
    refine List.Nodup.append h (List.nodup_singleton k) ?_
    intro a ha hb
    simp only [List.mem_singleton] at hb
    subst hb
    exact hk ha

theorem mapDelete_sublist (l : List (String × α)) (k : String) :
    (mapDelete l k).Sublist l := by
  induction l with
  | nil => simp [mapDelete]
  | cons e t ih =>
    obtain ⟨k₀, v₀⟩ := e
    by_cases h₀ : k₀ = k
    · simpa [mapDelete, h₀] using List.Sublist.cons (k₀, v₀) ih
    · simpa [mapDelete, h₀] using List.Sublist.cons₂ (k₀, v₀) ih

theorem mapKeys_mapDelete_nodup {l : List (String × α)} (h : (mapKeys l).Nodup)
    (k : String) : (mapKeys (mapDelete l k)).Nodup :=
  ((mapDelete_sublist l k).map Prod.fst).nodup h

theorem isEmptyIffNil {l : List α} : l.isEmpty = true ↔ l = [] := by
  cases l <;> simp

theorem ne_nil_of_mapGet_isSome {l : List (String × α)} {k : String}
    (h : (mapGet l k).isSome) : l ≠ [] := by
  cases l with
  | nil => simp [mapGet] at h
  | cons e t => simp

/-! ### The group-manager invariant -/

/-- The joint invariant of the two subscription indices:
symmetry of the forward and inverse indices, eager pruning (no empty inner
map or set is stored, and the inverse index only names groups present in
the forward index), and set/key uniqueness (JS sets and map keys hold no
duplicates). -/
structure GMInv (st : GMState) : Prop where
  sym : ∀ c g m, c ∈ getGroupRecipients st g m ↔ m ∈ subsOf st c g
  subsNE : ∀ c sm, mapGet st.agentSubscriptions c = some sm → sm ≠ []
  subsSetNE : ∀ c sm g s, mapGet st.agentSubscriptions c = some sm →
    mapGet sm g = some s → s ≠ []
  subsGroup : ∀ c sm g s, mapGet st.agentSubscriptions c = some sm →
    mapGet sm g = some s → (mapGet st.groups g).isSome
  recNodup : ∀ g gm m s, mapGet st.groups g = some gm →
    mapGet gm m = some s → s.Nodup
  subsNodup : ∀ c sm g s, mapGet st.agentSubscriptions c = some sm →
    mapGet sm g = some s → s.Nodup
  subsKeysNodup : ∀ c sm, mapGet st.agentSubscriptions c = some sm →
    (mapKeys sm).Nodup

theorem inv_empty : GMInv emptyGM := by
  constructor <;> intro _ <;> simp [emptyGM, getGroupRecipients, subsOf]

theorem subsOf_nodup {st : GMState} (hInv : GMInv st) (c g : String) :
    (subsOf st c g).Nodup := by
  cases hc : mapGet st.agentSubscriptions c with
  | none => simp [subsOf, hc]
  | some sm =>
    cases hg : mapGet sm g with
    | none => simp [subsOf, hc, hg]
    | some s => simpa [subsOf, hc, hg] using hInv.subsNodup c sm g s hc hg

theorem recip_nodup {st : GMState} (hInv : GMInv st) (g m : String) :
    (getGroupRecipients st g m).Nodup := by
  cases hg : mapGet st.groups g with
  | none => simp [getGroupRecipients, hg]
  | some gm =>
    cases hm : mapGet gm m with
    | none => simp [getGroupRecipients, hg, hm]
    | some s => simpa [getGroupRecipients, hg, hm] using hInv.recNodup g gm m s hg hm

/-! ### Set-level characterization of joinGroup and leaveGroup -/

theorem recip_getD (st : GMState) (g m : String) :
    getGroupRecipients st g m =
      (mapGet ((mapGet st.groups g).getD []) m).getD [] := by
  cases h : mapGet st.groups g <;> simp [getGroupRecipients, h]

theorem subsOf_getD (st : GMState) (c g : String) :
    subsOf st c g =
      (mapGet ((mapGet st.agentSubscriptions c).getD []) g).getD [] := by
  cases h : mapGet st.agentSubscriptions c <;> simp [subsOf, h]

theorem joinGroup_fst (st : GMState) (c g : String) (ts : List String)
    (h : ts.isEmpty = false) :
    (joinGroup st c g ts).1 =
      { groups := mapSet st.groups g
          (ts.foldl (joinFoldG c) ((mapGet st.groups g).getD [])),
        agentSubscriptions := mapSet st.agentSubscriptions c
          (mapSet ((mapGet st.agentSubscriptions c).getD []) g
            (ts.foldl setAdd (subsOf st c g))) } := by
  rw [subsOf_getD]
  simp only [joinGroup, h, Bool.false_eq_true, if_false, foldl_joinStep_eq]
  by_cases hc :
      (ts.foldl setAdd
        ((mapGet ((mapGet st.agentSubscriptions c).getD []) g).getD [])).length >
        MAX_MSG_TYPES
  · simp [hc]
  · simp [hc]

theorem joinGroup_snd_isSome_iff (st : GMState) (c g : String) (ts : List String) :
    (joinGroup st c g ts).2.isSome ↔
      ts.isEmpty = true ∨
        (ts.foldl setAdd (subsOf st c g)).length > MAX_MSG_TYPES := by
  rw [subsOf_getD]
  by_cases h : ts.isEmpty
  · simp [joinGroup, h]
  · simp only [joinGroup, h, Bool.false_eq_true, if_false, foldl_joinStep_eq]
    by_cases hc :
        (ts.foldl setAdd
          ((mapGet ((mapGet st.agentSubscriptions c).getD []) g).getD [])).length >
          MAX_MSG_TYPES
    · simp [hc, h]
    · simp [hc, h]

theorem joinGroup_recip (st : GMState) (c g : String) (ts : List String)
    (h : ts.isEmpty = false) (g' m : String) :
    getGroupRecipients (joinGroup st c g ts).1 g' m =
      if g' = g ∧ m ∈ ts then setAdd (getGroupRecipients st g' m) c
      else getGroupRecipients st g' m := by
  rw [joinGroup_fst st c g ts h]
  by_cases hg : g' = g
  · subst hg
    rw [recip_getD st g' m]
    simp only [getGroupRecipients, mapGet_set_self, Option.some_bind]
    rw [mapGet_foldl_joinFoldG]
    by_cases hm : m ∈ ts
    · simp [hm]
    · simp [hm]
  · have hgg : g ≠ g' := fun heq => hg heq.symm
    simp [getGroupRecipients, mapGet_set_ne _ _ hgg, hg]

theorem joinGroup_subsOf (st : GMState) (c g : String) (ts : List String)
    (h : ts.isEmpty = false) (c' g' : String) :
    subsOf (joinGroup st c g ts).1 c' g' =
      if c' = c ∧ g' = g then ts.foldl setAdd (subsOf st c g)
      else subsOf st c' g' := by
  rw [joinGroup_fst st c g ts h]
  by_cases hc : c' = c
  · subst hc
    simp only [subsOf, mapGet_set_self, Option.some_bind]
    by_cases hg : g' = g
    · subst hg
      simp
    · have hgg : g ≠ g' := fun heq => hg heq.symm
      rw [mapGet_set_ne _ _ hgg, ← subsOf_getD st c' g']
      simp [subsOf, hg]
  · have hcc : c ≠ c' := fun heq => hc heq.symm
    simp [subsOf, mapGet_set_ne _ _ hcc, hc]

theorem leaveGroup_recip (st : GMState) (c g g' m : String) :
    getGroupRecipients (leaveGroup st c g) g' m =
      if g' = g ∧ m ∈ subsOf st c g then setDelete (getGroupRecipients st g' m) c
      else getGroupRecipients st g' m := by
  cases hsubs : mapGet st.agentSubscriptions c with
  | none =>
    simp [leaveGroup, hsubs, subsOf]
  | some sm =>
    cases hgr : mapGet st.groups g with
    | none =>
      have hL : leaveGroup st c g = st := by simp [leaveGroup, hsubs, hgr]
      by_cases hg : g' = g
      · subst hg
        have h0 : getGroupRecipients st g' m = [] := by
          simp [getGroupRecipients, hgr]
        rw [hL, h0]
        by_cases hm : m ∈ subsOf st c g' <;> simp [hm, setDelete]
      · simp [hL, hg]
    | some gm =>
      cases hS : mapGet sm g with
      | none =>
        have hsub0 : subsOf st c g = [] := by simp [subsOf, hsubs, hS]
        rw [hsub0]
        simp only [List.not_mem_nil, and_false, if_false]
        have hL : (leaveGroup st c g).groups =
            (if gm.isEmpty then mapDelete st.groups g
             else mapSet st.groups g gm) := by
          simp [leaveGroup, hsubs, hgr, hS]
        by_cases hgm : gm = []
        · by_cases hg : g' = g
          · subst hg
            simp [getGroupRecipients, hL, hgm, hgr]
          · have hgg : ¬g = g' := fun h => hg h.symm
            simp [getGroupRecipients, hL, hgm, mapGet_mapDelete, hgg]
        · simp [getGroupRecipients, hL, isEmptyIffNil, hgm, mapSet_get_self hgr]
      | some S =>
        have hsubS : subsOf st c g = S := by simp [subsOf, hsubs, hS]
        have hL : (leaveGroup st c g).groups =
            (if (S.foldl (leaveStep c) gm).isEmpty then mapDelete st.groups g
             else mapSet st.groups g (S.foldl (leaveStep c) gm)) := by
          simp [leaveGroup, hsubs, hgr, hS]
        rw [hsubS]
        by_cases hg : g' = g
        · subst hg
          have huniform : getGroupRecipients (leaveGroup st c g') g' m =
              (mapGet (S.foldl (leaveStep c) gm) m).getD [] := by
            by_cases hgmFe : S.foldl (leaveStep c) gm = []
            · simp [getGroupRecipients, hL, hgmFe]
            · simp [getGroupRecipients, hL, hgmFe, isEmptyIffNil]
          rw [huniform, mapGet_foldl_leaveStep]
          have hrec : getGroupRecipients st g' m = (mapGet gm m).getD [] := by
            simp [getGroupRecipients, hgr]
          rw [hrec]
          by_cases hm : m ∈ S
          · rw [if_pos hm, if_pos ⟨rfl, hm⟩]
            cases hgmm : mapGet gm m with
            | none => simp [delConn, setDelete]
            | some s =>
              by_cases hde : setDelete s c = []
              · simp [delConn, hgmm, hde]
              · simp [delConn, hgmm, hde]
          · rw [if_neg hm, if_neg (fun hand => hm hand.2)]
        · have hgg : ¬g = g' := fun h => hg h.symm
          have hunch : mapGet (leaveGroup st c g).groups g' = mapGet st.groups g' := by
            rw [hL]
            by_cases hgmFe : S.foldl (leaveStep c) gm = []
            · simp [hgmFe, mapGet_mapDelete, hgg]
            · simp [hgmFe, isEmptyIffNil, mapGet_mapSet, hgg]
          simp [getGroupRecipients, hunch, hg]

theorem leaveGroup_subsOf {st : GMState} (hInv : GMInv st) (c g c' g' : String) :
    subsOf (leaveGroup st c g) c' g' =
      if c' = c ∧ g' = g then [] else subsOf st c' g' := by
  cases hsubs : mapGet st.agentSubscriptions c with
  | none =>
    have hL : leaveGroup st c g = st := by simp [leaveGroup, hsubs]
    rw [hL]
    by_cases hcg : c' = c ∧ g' = g
    · obtain ⟨rfl, rfl⟩ := hcg
      simp [subsOf, hsubs]
    · simp [hcg]
  | some sm =>
    cases hgr : mapGet st.groups g with
    | none =>
      have hL : leaveGroup st c g = st := by simp [leaveGroup, hsubs, hgr]
      have hSnone : mapGet sm g = none := by
        cases hS : mapGet sm g with
        | none => rfl
        | some S => exact absurd (hInv.subsGroup c sm g S hsubs hS) (by simp [hgr])
      rw [hL]
      by_cases hcg : c' = c ∧ g' = g
      · obtain ⟨rfl, rfl⟩ := hcg
        simp [subsOf, hsubs, hSnone]
      · simp [hcg]
    | some gm =>
      cases hS : mapGet sm g with
      | none =>
        have hsmne : sm ≠ [] := hInv.subsNE c sm hsubs
        have hA : (leaveGroup st c g).agentSubscriptions = st.agentSubscriptions := by
          simp [leaveGroup, hsubs, hgr, hS, isEmptyIffNil, hsmne, mapSet_get_self hsubs]
        by_cases hcg : c' = c ∧ g' = g
        · obtain ⟨rfl, rfl⟩ := hcg
          simp [subsOf, hA, hsubs, hS]
        · simp [subsOf, hA, hcg]
      | some S =>
        have hA : (leaveGroup st c g).agentSubscriptions =
            (if (mapDelete sm g).isEmpty then mapDelete st.agentSubscriptions c
             else mapSet st.agentSubscriptions c (mapDelete sm g)) := by
          simp [leaveGroup, hsubs, hgr, hS]
        by_cases hc : c' = c
        · subst hc
          have hget : mapGet (leaveGroup st c' g).agentSubscriptions c' =
              (if mapDelete sm g = [] then none else some (mapDelete sm g)) := by
            rw [hA]
            by_cases hsd : mapDelete sm g = []
            · simp [hsd]
            · simp [hsd, isEmptyIffNil]
          by_cases hg : g' = g
          · subst hg
            by_cases hsd : mapDelete sm g' = []
            · simp [subsOf, hget, hsd]
            · simp [subsOf, hget, hsd]
          · by_cases hsd : mapDelete sm g = []
            · have hnone : mapGet sm g' = none :=
                mapGet_eq_none_of_delete_nil hsd hg
              simp [subsOf, hget, hsd, hsubs, hnone, hg]
            · have hne : mapGet (mapDelete sm g) g' = mapGet sm g' :=
                mapGet_delete_ne sm (fun h => hg h.symm)
              simp [subsOf, hget, hsd, hsubs, hne, hg]
        · have hcc : ¬c = c' := fun h => hc h.symm
          have hunch : mapGet (leaveGroup st c g).agentSubscriptions c' =
              mapGet st.agentSubscriptions c' := by
            rw [hA]
            by_cases hsd : (mapDelete sm g).isEmpty
            · simp [hsd, mapGet_mapDelete, hcc]
            · simp [hsd, mapGet_mapSet, hcc]
          simp [subsOf, hunch, hc]

/-! ### Invariant preservation -/

theorem joinGroup_subs_entry (st : GMState) (c g : String) (ts : List String)
    (hts : ts.isEmpty = false) (c' : String) :
    mapGet (joinGroup st c g ts).1.agentSubscriptions c' =
      if c = c' then
        some (mapSet ((mapGet st.agentSubscriptions c).getD []) g
          (ts.foldl setAdd (subsOf st c g)))
      else mapGet st.agentSubscriptions c' := by
  rw [joinGroup_fst st c g ts hts]
  exact mapGet_mapSet _ _ _ _

theorem joinGroup_groups_entry (st : GMState) (c g : String) (ts : List String)
    (hts : ts.isEmpty = false) (g' : String) :
    mapGet (joinGroup st c g ts).1.groups g' =
      if g = g' then
        some (ts.foldl (joinFoldG c) ((mapGet st.groups g).getD []))
      else mapGet st.groups g' := by
  rw [joinGroup_fst st c g ts hts]
  exact mapGet_mapSet _ _ _ _

theorem joinGroup_inv {st : GMState} (hInv : GMInv st) (c g : String)
    (ts : List String) : GMInv (joinGroup st c g ts).1 := by
  by_cases hts : ts.isEmpty
  · have h1 : (joinGroup st c g ts).1 = st := by simp [joinGroup, hts]
    rw [h1]
    exact hInv
  · have hts' : ts.isEmpty = false := by simpa using hts
    have hne : ts ≠ [] := fun h => hts (by simp [h])
    have hsubs := joinGroup_subs_entry st c g ts hts'
    have hgroups := joinGroup_groups_entry st c g ts hts'
    refine ⟨?_, ?_, ?_, ?_, ?_, ?_, ?_⟩
    · intro c' g' m
      rw [joinGroup_recip st c g ts hts', joinGroup_subsOf st c g ts hts']
      by_cases hg : g' = g <;> by_cases hm : m ∈ ts <;> by_cases hc : c' = c <;>
        simp [hg, hm, hc, mem_foldl_setAdd, hInv.sym]
    · intro c' sm' h
      rw [hsubs c'] at h
      by_cases hc : c = c'
      · rw [if_pos hc] at h
        obtain rfl := Option.some.inj h
        exact mapSet_ne_nil _ _ _
      · rw [if_neg hc] at h
        exact hInv.subsNE c' sm' h
    · intro c' sm' g' s h hg'
      rw [hsubs c'] at h
      by_cases hc : c = c'
      · rw [if_pos hc] at h
        obtain rfl := Option.some.inj h
        rw [mapGet_mapSet] at hg'
        by_cases hgg : g = g'
        · rw [if_pos hgg] at hg'
          obtain rfl := Option.some.inj hg'
          exact foldl_setAdd_ne_nil hne _
        · rw [if_neg hgg] at hg'
          cases hsc : mapGet st.agentSubscriptions c with
          | none => rw [hsc] at hg'; simp at hg'
          | some sm₀ =>
            rw [hsc] at hg'
            exact hInv.subsSetNE c sm₀ g' s hsc (by simpa using hg')
      · rw [if_neg hc] at h
        exact hInv.subsSetNE c' sm' g' s h hg'
    · intro c' sm' g' s h hg'
      rw [hgroups g']
      by_cases hgg : g = g'
      · simp [hgg]
      · rw [if_neg hgg]
        rw [hsubs c'] at h
        by_cases hc : c = c'
        · rw [if_pos hc] at h
          obtain rfl := Option.some.inj h
          rw [mapGet_mapSet, if_neg hgg] at hg'
          cases hsc : mapGet st.agentSubscriptions c with
          | none => rw [hsc] at hg'; simp at hg'
          | some sm₀ =>
            rw [hsc] at hg'
            exact hInv.subsGroup c sm₀ g' s hsc (by simpa using hg')
        · rw [if_neg hc] at h
          exact hInv.subsGroup c' sm' g' s h hg'
    · intro g' gm' m s h hm
      rw [hgroups g'] at h
      by_cases hgg : g = g'
      · rw [if_pos hgg] at h
        obtain rfl := Option.some.inj h
        rw [mapGet_foldl_joinFoldG] at hm
        by_cases hmem : m ∈ ts
        · rw [if_pos hmem] at hm
          obtain rfl := Option.some.inj hm
          refine setAdd_nodup ?_ c
          cases hsg : mapGet st.groups g with
          | none => simp [hsg]
          | some gm₀ =>
            cases hsm : mapGet gm₀ m with
            | none => simp [hsg, hsm]
            | some s₀ => simpa [hsg, hsm] using hInv.recNodup g gm₀ m s₀ hsg hsm
        · rw [if_neg hmem] at hm
          cases hsg : mapGet st.groups g with
          | none => rw [hsg] at hm; simp at hm
          | some gm₀ =>
            rw [hsg] at hm
            exact hInv.recNodup g gm₀ m s hsg (by simpa using hm)
      · rw [if_neg hgg] at h
        exact hInv.recNodup g' gm' m s h hm
    · intro c' sm' g' s h hg'
      rw [hsubs c'] at h
      by_cases hc : c = c'
      · rw [if_pos hc] at h
        obtain rfl := Option.some.inj h
        rw [mapGet_mapSet] at hg'
        by_cases hgg : g = g'
        · rw [if_pos hgg] at hg'
          obtain rfl := Option.some.inj hg'
          exact nodup_foldl_setAdd ts (subsOf_nodup hInv c g)
        · rw [if_neg hgg] at hg'
          cases hsc : mapGet st.agentSubscriptions c with
          | none => rw [hsc] at hg'; simp at hg'
          | some sm₀ =>
            rw [hsc] at hg'
            exact hInv.subsNodup c sm₀ g' s hsc (by simpa using hg')
      · rw [if_neg hc] at h
        exact hInv.subsNodup c' sm' g' s h hg'
    · intro c' sm' h
      rw [hsubs c'] at h
      by_cases hc : c = c'
      · rw [if_pos hc] at h
        obtain rfl := Option.some.inj h
        refine mapKeys_mapSet_nodup ?_ g _
        cases hsc : mapGet st.agentSubscriptions c with
        | none => simp [hsc, mapKeys]
        | some sm₀ => simpa [hsc] using hInv.subsKeysNodup c sm₀ hsc
      · rw [if_neg hc] at h
        exact hInv.subsKeysNodup c' sm' h

theorem leaveGroup_inv {st : GMState} (hInv : GMInv st) (c g : String) :
    GMInv (leaveGroup st c g) := by
  have hsym : ∀ c' g' m, c' ∈ getGroupRecipients (leaveGroup st c g) g' m ↔
      m ∈ subsOf (leaveGroup st c g) c' g' := by
    intro c' g' m
    rw [leaveGroup_recip st c g g' m, leaveGroup_subsOf hInv c g c' g']
    by_cases hg : g' = g <;> by_cases hc : c' = c <;>
      by_cases hm : m ∈ subsOf st c g <;> simp [hg, hc, hm, hInv.sym]
  cases hsubs : mapGet st.agentSubscriptions c with
  | none =>
    have hL : leaveGroup st c g = st := by simp [leaveGroup, hsubs]
    rw [hL]
    exact hInv
  | some sm =>
    have hsmne : sm ≠ [] := hInv.subsNE c sm hsubs
    cases hgr : mapGet st.groups g with
    | none =>
      have hL : leaveGroup st c g = st := by simp [leaveGroup, hsubs, hgr]
      rw [hL]
      exact hInv
    | some gm =>
      cases hS : mapGet sm g with
      | none =>
        have hAL : (leaveGroup st c g).agentSubscriptions = st.agentSubscriptions := by
          simp [leaveGroup, hsubs, hgr, hS, isEmptyIffNil, hsmne, mapSet_get_self hsubs]
        by_cases hgm : gm = []
        · have hGL : (leaveGroup st c g).groups = mapDelete st.groups g := by
            simp [leaveGroup, hsubs, hgr, hS, hgm]
          refine ⟨hsym, ?_, ?_, ?_, ?_, ?_, ?_⟩
          · intro c' sm' h
            rw [hAL] at h
            exact hInv.subsNE c' sm' h
          · intro c' sm' g' s h hg'
            rw [hAL] at h
            exact hInv.subsSetNE c' sm' g' s h hg'
          · intro c' sm' g' s h hg'
            rw [hAL] at h
            rw [hGL, mapGet_mapDelete]
            by_cases hgg : g = g'
            · exfalso
              have hne : s ≠ [] := hInv.subsSetNE c' sm' g' s h hg'
              obtain ⟨m, hmem⟩ := List.exists_mem_of_ne_nil s hne
              have hmsub : m ∈ subsOf st c' g' := by simp [subsOf, h, hg', hmem]
              have := (hInv.sym c' g' m).mpr hmsub
              rw [← hgg] at this
              simp [getGroupRecipients, hgr, hgm] at this
            · rw [if_neg hgg]
              exact hInv.subsGroup c' sm' g' s h hg'
          · intro g' gm' m s h hm
            rw [hGL, mapGet_mapDelete] at h
            by_cases hgg : g = g'
            · rw [if_pos hgg] at h
              exact absurd h (by simp)
            · rw [if_neg hgg] at h
              exact hInv.recNodup g' gm' m s h hm
          · intro c' sm' g' s h hg'
            rw [hAL] at h
            exact hInv.subsNodup c' sm' g' s h hg'
          · intro c' sm' h
            rw [hAL] at h
            exact hInv.subsKeysNodup c' sm' h
        · have hL : leaveGroup st c g = st := by
            simp [leaveGroup, hsubs, hgr, hS, isEmptyIffNil, hgm, hsmne,
              mapSet_get_self hgr, mapSet_get_self hsubs]
          rw [hL]
          exact hInv
      | some S =>
        have hAL : (leaveGroup st c g).agentSubscriptions =
            (if (mapDelete sm g).isEmpty then mapDelete st.agentSubscriptions c
             else mapSet st.agentSubscriptions c (mapDelete sm g)) := by
          simp [leaveGroup, hsubs, hgr, hS]
        have hGL : (leaveGroup st c g).groups =
            (if (S.foldl (leaveStep c) gm).isEmpty then mapDelete st.groups g
             else mapSet st.groups g (S.foldl (leaveStep c) gm)) := by
          simp [leaveGroup, hsubs, hgr, hS]
        have hgetA : ∀ c', mapGet (leaveGroup st c g).agentSubscriptions c' =
            if c = c' then
              (if mapDelete sm g = [] then none else some (mapDelete sm g))
            else mapGet st.agentSubscriptions c' := by
          intro c'
          rw [hAL]
          by_cases hsd : mapDelete sm g = []
          · simp [hsd, mapGet_mapDelete]
          · simp [hsd, isEmptyIffNil, mapGet_mapSet]
        have hgetG : ∀ g', mapGet (leaveGroup st c g).groups g' =
            if g = g' then
              (if S.foldl (leaveStep c) gm = [] then none
               else some (S.foldl (leaveStep c) gm))
            else mapGet st.groups g' := by
          intro g'
          rw [hGL]
          by_cases hf : S.foldl (leaveStep c) gm = []
          · simp [hf, mapGet_mapDelete]
          · simp [hf, isEmptyIffNil, mapGet_mapSet]
        refine ⟨hsym, ?_, ?_, ?_, ?_, ?_, ?_⟩
        · intro c' sm' h
          rw [hgetA c'] at h
          by_cases hc : c = c'
          · rw [if_pos hc] at h
            by_cases hsd : mapDelete sm g = []
            · rw [if_pos hsd] at h
              exact absurd h (by simp)
            · rw [if_neg hsd] at h
              obtain rfl := Option.some.inj h
              exact hsd
          · rw [if_neg hc] at h
            exact hInv.subsNE c' sm' h
        · intro c' sm' g' s h hg'
          rw [hgetA c'] at h
          by_cases hc : c = c'
          · rw [if_pos hc] at h
            by_cases hsd : mapDelete sm g = []
            · rw [if_pos hsd] at h
              exact absurd h (by simp)
            · rw [if_neg hsd] at h
              obtain rfl := Option.some.inj h
              rw [mapGet_mapDelete] at hg'
              by_cases hgg : g = g'
              · rw [if_pos hgg] at hg'
                exact absurd hg' (by simp)
              · rw [if_neg hgg] at hg'
                exact hInv.subsSetNE c sm g' s hsubs hg'
          · rw [if_neg hc] at h
            exact hInv.subsSetNE c' sm' g' s h hg'
        · intro c' sm' g' s h hg'
          rw [hgetG g']
          by_cases hgg : g = g'
          · rw [if_pos hgg]
            rw [hgetA c'] at h
            by_cases hc : c = c'
            · rw [if_pos hc] at h
              by_cases hsd : mapDelete sm g = []
              · rw [if_pos hsd] at h
                exact absurd h (by simp)
              · rw [if_neg hsd] at h
                obtain rfl := Option.some.inj h
                rw [mapGet_mapDelete, ← hgg] at hg'
                simp at hg'
            · rw [if_neg hc] at h
              have hne : s ≠ [] := hInv.subsSetNE c' sm' g' s h hg'
              obtain ⟨m, hmem⟩ := List.exists_mem_of_ne_nil s hne
              have hmsub : m ∈ subsOf st c' g' := by simp [subsOf, h, hg', hmem]
              have hrec := (hInv.sym c' g' m).mpr hmsub
              rw [← hgg] at hrec
              rw [recip_getD st g m, hgr] at hrec
              simp only [Option.getD_some] at hrec
              cases hgm : mapGet gm m with
              | none => rw [hgm] at hrec; simp at hrec
              | some s₂ =>
                rw [hgm] at hrec
                simp only [Option.getD_some] at hrec
                have hfold : (mapGet (S.foldl (leaveStep c) gm) m).isSome := by
                  rw [mapGet_foldl_leaveStep]
                  by_cases hms : m ∈ S
                  · rw [if_pos hms, hgm]
                    have hcc : c' ≠ c := fun h2 => hc h2.symm
                    have hcin : c' ∈ setDelete s₂ c := by
                      simp [hrec, hcc]
                    have hnn : setDelete s₂ c ≠ [] := List.ne_nil_of_mem hcin
                    simp [delConn, hnn]
                  · rw [if_neg hms, hgm]
                    simp
                have : S.foldl (leaveStep c) gm ≠ [] :=
                  ne_nil_of_mapGet_isSome hfold
                simp [this]
          · rw [if_neg hgg]
            rw [hgetA c'] at h
            by_cases hc : c = c'
            · rw [if_pos hc] at h
              by_cases hsd : mapDelete sm g = []
              · rw [if_pos hsd] at h
                exact absurd h (by simp)
              · rw [if_neg hsd] at h
                obtain rfl := Option.some.inj h
                rw [mapGet_mapDelete, if_neg hgg] at hg'
                exact hInv.subsGroup c sm g' s hsubs hg'
            · rw [if_neg hc] at h
              exact hInv.subsGroup c' sm' g' s h hg'
        · intro g' gm' m s h hm
          rw [hgetG g'] at h
          by_cases hgg : g = g'
          · rw [if_pos hgg] at h
            by_cases hf : S.foldl (leaveStep c) gm = []
            · rw [if_pos hf] at h
              exact absurd h (by simp)
            · rw [if_neg hf] at h
              obtain rfl := Option.some.inj h
              rw [mapGet_foldl_leaveStep] at hm
              by_cases hms : m ∈ S
              · rw [if_pos hms] at hm
                cases hgm : mapGet gm m with
                | none => rw [hgm] at hm; simp [delConn] at hm
                | some s₂ =>
                  rw [hgm] at hm
                  by_cases hde : setDelete s₂ c = []
                  · simp [delConn, hde] at hm
                  · have : some (setDelete s₂ c) = some s := by
                      simpa [delConn, hde] using hm
                    obtain rfl := Option.some.inj this
                    exact setDelete_nodup (hInv.recNodup g gm m s₂ hgr hgm) c
              · rw [if_neg hms] at hm
                exact hInv.recNodup g gm m s hgr hm
          · rw [if_neg hgg] at h
            exact hInv.recNodup g' gm' m s h hm
        · intro c' sm' g' s h hg'
          rw [hgetA c'] at h
          by_cases hc : c = c'
          · rw [if_pos hc] at h
            by_cases hsd : mapDelete sm g = []
            · rw [if_pos hsd] at h
              exact absurd h (by simp)
            · rw [if_neg hsd] at h
              obtain rfl := Option.some.inj h
              rw [mapGet_mapDelete] at hg'
              by_cases hgg : g = g'
              · rw [if_pos hgg] at hg'
                exact absurd hg' (by simp)
              · rw [if_neg hgg] at hg'
                exact hInv.subsNodup c sm g' s hsubs hg'
          · rw [if_neg hc] at h
            exact hInv.subsNodup c' sm' g' s h hg'
        · intro c' sm' h
          rw [hgetA c'] at h
          by_cases hc : c = c'
          · rw [if_pos hc] at h
            by_cases hsd : mapDelete sm g = []
            · rw [if_pos hsd] at h
              exact absurd h (by simp)
            · rw [if_neg hsd] at h
              obtain rfl := Option.some.inj h
              exact mapKeys_mapDelete_nodup (hInv.subsKeysNodup c sm hsubs) g
          · rw [if_neg hc] at h
            exact hInv.subsKeysNodup c' sm' h

/-! ### removeAgentFromAllGroups -/

theorem leaveGroup_subs_self {st : GMState} {c g : String} {sm : SubMap}
    {gm : GroupMap} {S : MsgSet}
    (hsubs : mapGet st.agentSubscriptions c = some sm)
    (hgr : mapGet st.groups g = some gm) (hS : mapGet sm g = some S) :
    mapGet (leaveGroup st c g).agentSubscriptions c =
      if mapDelete sm g = [] then none else some (mapDelete sm g) := by
  have hAL : (leaveGroup st c g).agentSubscriptions =
      (if (mapDelete sm g).isEmpty then mapDelete st.agentSubscriptions c
       else mapSet st.agentSubscriptions c (mapDelete sm g)) := by
    simp [leaveGroup, hsubs, hgr, hS]
  rw [hAL]
  by_cases hsd : mapDelete sm g = []
  · simp [hsd]
  · simp [hsd, isEmptyIffNil]

/-- Iterating `leaveGroup` over a list covering every group the agent is
subscribed to removes the agent's inverse-index entry entirely. -/
theorem leaveGroup_foldl_subs_none (R : List String) :
    ∀ (st : GMState) (c : String), GMInv st →
      (∀ sm, mapGet st.agentSubscriptions c = some sm →
        ∀ k ∈ mapKeys sm, k ∈ R) →
      GMInv (R.foldl (fun s g => leaveGroup s c g) st) ∧
        mapGet (R.foldl (fun s g => leaveGroup s c g) st).agentSubscriptions c =
          none := by
  induction R with
  | nil =>
    intro st c hInv hkeys
    refine ⟨hInv, ?_⟩
    cases hsc : mapGet st.agentSubscriptions c with
    | none => exact hsc
    | some sm =>
      exfalso
      have hne : sm ≠ [] := hInv.subsNE c sm hsc
      obtain ⟨e, he⟩ := List.exists_mem_of_ne_nil sm hne
      have hkm : e.1 ∈ mapKeys sm := List.mem_map_of_mem Prod.fst he
      exact absurd (hkeys sm hsc e.1 hkm) (List.not_mem_nil e.1)
  | cons gh R' ih =>
    intro st c hInv hkeys
    simp only [List.foldl_cons]
    apply ih (leaveGroup st c gh) c (leaveGroup_inv hInv c gh)
    intro sm' h k hk
    cases hsc : mapGet st.agentSubscriptions c with
    | none =>
      have hL : leaveGroup st c gh = st := by simp [leaveGroup, hsc]
      rw [hL, hsc] at h
      exact absurd h (by simp)
    | some sm =>
      have hkeys' := hkeys sm hsc
      cases hgr : mapGet st.groups gh with
      | none =>
        have hL : leaveGroup st c gh = st := by simp [leaveGroup, hsc, hgr]
        rw [hL, hsc] at h
        obtain rfl : sm' = sm := (Option.some.inj h).symm
        have hSnone : mapGet sm' gh = none := by
          cases hS : mapGet sm' gh with
          | none => rfl
          | some S => exact absurd (hInv.subsGroup c sm' gh S hsc hS) (by simp [hgr])
        have hkgh : k ≠ gh := by
          intro hkeq
          subst hkeq
          have hik := (mapGet_isSome_iff_mem_keys sm' k).mpr hk
          rw [hSnone] at hik
          simp at hik
        rcases List.mem_cons.mp (hkeys' k hk) with hkg | hmem
        · exact absurd hkg hkgh
        · exact hmem
      | some gm =>
        cases hS : mapGet sm gh with
        | none =>
          have hsmne : sm ≠ [] := hInv.subsNE c sm hsc
          have hAL : (leaveGroup st c gh).agentSubscriptions =
              st.agentSubscriptions := by
            simp [leaveGroup, hsc, hgr, hS, isEmptyIffNil, hsmne,
              mapSet_get_self hsc]
          rw [hAL, hsc] at h
          obtain rfl : sm' = sm := (Option.some.inj h).symm
          have hkgh : k ≠ gh := by
            intro hkeq
            subst hkeq
            have hik := (mapGet_isSome_iff_mem_keys sm' k).mpr hk
            rw [hS] at hik
            simp at hik
          rcases List.mem_cons.mp (hkeys' k hk) with hkg | hmem
          · exact absurd hkg hkgh
          · exact hmem
        | some S =>
          rw [leaveGroup_subs_self hsc hgr hS] at h
          by_cases hsd : mapDelete sm gh = []
          · rw [if_pos hsd] at h
            exact absurd h (by simp)
          · rw [if_neg hsd] at h
            obtain rfl : sm' = mapDelete sm gh := (Option.some.inj h).symm
            obtain ⟨hmem, hne⟩ := mem_keys_mapDelete hk
            rcases List.mem_cons.mp (hkeys' k hmem) with hkg | hmem'
            · exact absurd hkg hne
            · exact hmem'

theorem removeAgentFromAllGroups_spec {st : GMState} (hInv : GMInv st)
    (c : String) :
    GMInv (removeAgentFromAllGroups st c) ∧
      mapGet (removeAgentFromAllGroups st c).agentSubscriptions c = none ∧
      ∀ g m, c ∉ getGroupRecipients (removeAgentFromAllGroups st c) g m := by
  have haux := leaveGroup_foldl_subs_none (getAgentGroups st c) st c hInv ?_
  · obtain ⟨hInv', hnone⟩ := haux
    refine ⟨hInv', hnone, ?_⟩
    intro g m hmem
    have hsub := (hInv'.sym c g m).mp hmem
    simp [subsOf, hnone] at hsub
  · intro sm h k hk
    simpa [getAgentGroups, h] using hk

/-! ### Claim C1 and C2 theorems -/

/-- A call trace against the group manager. -/
inductive GMOp where
  | join (connId groupId : String) (msgTypes : List String)
  | leave (connId groupId : String)
  | removeAll (connId : String)
  deriving Repr, DecidableEq

def applyOp (st : GMState) : GMOp → GMState
  | .join c g ts => (joinGroup st c g ts).1
  | .leave c g => leaveGroup st c g
  | .removeAll c => removeAgentFromAllGroups st c

/-- Running a call trace from the freshly initialized group manager. -/
def runOps (ops : List GMOp) : GMState := ops.foldl applyOp emptyGM

theorem foldl_applyOp_inv (ops : List GMOp) :
    ∀ st, GMInv st → GMInv (ops.foldl applyOp st) := by
  induction ops with
  | nil => intro st h; exact h
  | cons op t ih =>
    intro st h
    apply ih
    cases op with
    | join c g ts => exact joinGroup_inv h c g ts
    | leave c g => exact leaveGroup_inv h c g
    | removeAll c => exact (removeAgentFromAllGroups_spec h c).1

theorem runOps_inv (ops : List GMOp) : GMInv (runOps ops) :=
  foldl_applyOp_inv ops emptyGM inv_empty

/-- C1: Group-subscription symmetry invariant.  After every sequence of
`joinGroup`, `leaveGroup` and `removeAgentFromAllGroups` calls, a conn is in
the forward index set `getGroupRecipients(group, msg_type)` iff the msg_type
is in the inverse index `agent_subs[conn][group]`; and after
`removeAgentFromAllGroups(conn)` the conn has no inverse-index entry and
appears in no recipient set. -/
theorem group_subscription_symmetry (ops : List GMOp) :
    (∀ conn group msgType,
        conn ∈ getGroupRecipients (runOps ops) group msgType ↔
          msgType ∈ subsOf (runOps ops) conn group) ∧
      ∀ conn,
        mapGet (runOps (ops ++ [GMOp.removeAll conn])).agentSubscriptions conn
            = none ∧
          ∀ group msgType,
            conn ∉ getGroupRecipients (runOps (ops ++ [GMOp.removeAll conn]))
              group msgType := by
  have hinv := runOps_inv ops
  refine ⟨hinv.sym, ?_⟩
  intro conn
  have hrun : runOps (ops ++ [GMOp.removeAll conn]) =
      removeAgentFromAllGroups (runOps ops) conn := by
    simp [runOps, List.foldl_append, applyOp]
  obtain ⟨_, hnone, hnorec⟩ := removeAgentFromAllGroups_spec hinv conn
  rw [hrun]
  exact ⟨hnone, hnorec⟩

/-- The per-(conn, group) cap predicate of the spec: no inverse-index set
holds more than `MAX_MSG_TYPES` msg_types. -/
def CapOK (st : GMState) : Prop :=
  ∀ c g, (subsOf st c g).length ≤ MAX_MSG_TYPES

/-- 101 distinct msg_types used by the C2 counterexample. -/
def capTypes : List String := (List.range 101).map (fun n => toString n)

/-- The state after a single `joinGroup` of 101 distinct msg_types. -/
def capState : GMState := (joinGroup emptyGM "agent-1" "group-1" capTypes).1

set_option maxRecDepth 20000 in
/-- C2 counterexample: a single `joinGroup` call with 101 distinct msg_types
raises the cap error, yet the additions stand, so
`agent_subs["agent-1"]["group-1"]` holds 101 (> 100) distinct msg_types —
the claim that the set never exceeds 100 is false on the code. -/
theorem cap_counterexample :
    (subsOf capState "agent-1" "group-1").length = 101 ∧
      (subsOf capState "agent-1" "group-1").Nodup ∧
      (joinGroup emptyGM "agent-1" "group-1" capTypes).2 =
        some "Exceeded max 100 msg_types for this agent in this group" := by
  refine ⟨by decide, by decide, by decide⟩

/-- C2 amended: the cap is never silently exceeded.  From a state satisfying
the invariant and the cap, a `joinGroup` call that returns no error leaves
every `agent_subs[conn][group]` at ≤ 100 distinct msg_types (the sets are
duplicate-free, so length counts distinct msg_types); contrapositively, any
call whose result exceeds the cap raises the error (though its partial
additions stand, as the spec's open question (c) permits). -/
theorem cap_never_silently_exceeded {st : GMState} (hInv : GMInv st)
    (hCap : CapOK st) (c g : String) (ts : List String) :
    ((joinGroup st c g ts).2 = none → CapOK (joinGroup st c g ts).1) ∧
      (¬ CapOK (joinGroup st c g ts).1 → (joinGroup st c g ts).2 ≠ none) ∧
      ∀ c' g', (subsOf (joinGroup st c g ts).1 c' g').Nodup := by
  have hmain : (joinGroup st c g ts).2 = none → CapOK (joinGroup st c g ts).1 := by
    intro herr
    by_cases hts : ts.isEmpty
    · simp [joinGroup, hts] at herr
    · have hts' : ts.isEmpty = false := by simpa using hts
      have hlen : ¬((ts.foldl setAdd (subsOf st c g)).length > MAX_MSG_TYPES) := by
        intro hgt
        have hiff := joinGroup_snd_isSome_iff st c g ts
        rw [herr] at hiff
        simp [hts', hgt] at hiff
      intro c' g'
      rw [joinGroup_subsOf st c g ts hts']
      by_cases hcg : c' = c ∧ g' = g
      · rw [if_pos hcg]
        exact Nat.le_of_not_lt hlen
      · rw [if_neg hcg]
        exact hCap c' g'
  exact ⟨hmain, fun hnc herr => hnc (hmain herr),
    fun c' g' => subsOf_nodup (joinGroup_inv hInv c g ts) c' g'⟩

/-- Witness for the amended C2 theorem at a concrete input. -/
theorem cap_never_silently_exceeded_witness :
    ((joinGroup emptyGM "a" "g" ["x"]).2 = none →
        CapOK (joinGroup emptyGM "a" "g" ["x"]).1) ∧
      (¬ CapOK (joinGroup emptyGM "a" "g" ["x"]).1 →
        (joinGroup emptyGM "a" "g" ["x"]).2 ≠ none) ∧
      ∀ c' g', (subsOf (joinGroup emptyGM "a" "g" ["x"]).1 c' g').Nodup :=
  cap_never_silently_exceeded inv_empty
    (fun c g => by simp [subsOf, emptyGM, MAX_MSG_TYPES]) "a" "g" ["x"]

/-! ## Agent router broadcast fan-out (src/agent/agentRouter.js, deliverBroadcast) -/

/-- Observable effects of `deliverBroadcast`.  `M` is the type of the frame
being routed, opaque to the router (the frame is forwarded unchanged). -/
inductive BEffect (M : Type) where
  | send (connId : String) (msg : M)
  | busEmitBroadcast (node_id conn_id : String) (msg : M)
  deriving Repr, DecidableEq

/-- `deliverBroadcast(fromConn, msg)`: look up
`getGroupRecipients(msg.group, msg.msg_type)`; for each recipient conn id
other than the sender, send the frame unchanged if the agent registry still
has the conn; finally emit one `outbound:agent_broadcast` bus event carrying
`{from: {node_id, conn_id}, message}`.  The registry is embedded as the list
of registered conn ids. -/
def deliverBroadcast (M : Type) (gm : GMState) (registry : List String)
    (nodeId fromConnId groupId msgType : String) (msg : M) : List (BEffect M) :=
  ((getGroupRecipients gm groupId msgType).filterMap (fun connId =>
      if connId = fromConnId then none
      else if connId ∈ registry then some (BEffect.send connId msg)
      else none)) ++
    [BEffect.busEmitBroadcast nodeId fromConnId msg]

theorem count_send_broadcast {M : Type} [DecidableEq M] (registry : List String)
    (A : String) (msg : M) (c : String) :
    ∀ l : List String, l.Nodup →
      (l.filterMap (fun connId =>
          if connId = A then none
          else if connId ∈ registry then some (BEffect.send connId msg)
          else none)).count (BEffect.send c msg) =
        if c ∈ l ∧ c ≠ A ∧ c ∈ registry then 1 else 0 := by
  intro l
  induction l with
  | nil => simp
  | cons a t ih =>
    intro hnd
    obtain ⟨ha, ht⟩ := List.nodup_cons.mp hnd
    rw [List.filterMap_cons]
    by_cases haA : a = A
    · rw [if_pos haA, ih ht]
      by_cases hca : c = a
      · subst hca
        subst haA
        simp [ha]
      · simp only [List.mem_cons]
        by_cases hct : c ∈ t
        · simp [hct, hca]
        · simp [hct, hca]
    · rw [if_neg haA]
      by_cases hreg : a ∈ registry
      · rw [if_pos hreg]
        rw [List.count_cons, ih ht]
        by_cases hca : c = a
        · subst hca
          simp [ha, haA, hreg]
        · have : ¬(BEffect.send a msg = BEffect.send c msg) := by
            intro hcontr
            cases hcontr
            exact hca rfl
          simp only [List.mem_cons]
          by_cases hct : c ∈ t
          · simp [hct, hca, this, beq_iff_eq]
          · simp [hct, hca, this, beq_iff_eq]
      · rw [if_neg hreg, ih ht]
        by_cases hca : c = a
        · subst hca
          simp [ha, hreg]
        · simp only [List.mem_cons]
          by_cases hct : c ∈ t
          · simp [hct, hca]
          · simp [hct, hca]

theorem deliverBroadcast_spec {M : Type} [DecidableEq M] {gm : GMState}
    (hInv : GMInv gm) (registry : List String)
    (nodeId A G Mt : String) (msg : M) :
    (∀ c, (deliverBroadcast M gm registry nodeId A G Mt msg).count
        (BEffect.send c msg) =
          if c ∈ getGroupRecipients gm G Mt ∧ c ≠ A ∧ c ∈ registry then 1
          else 0) ∧
      (deliverBroadcast M gm registry nodeId A G Mt msg).count
        (BEffect.busEmitBroadcast nodeId A msg) = 1 ∧
      ∀ n c' m', BEffect.busEmitBroadcast n c' m' ∈
          deliverBroadcast M gm registry nodeId A G Mt msg →
        n = nodeId ∧ c' = A ∧ m' = msg := by
  refine ⟨?_, ?_, ?_⟩
  · intro c
    rw [deliverBroadcast, List.count_append,
      count_send_broadcast registry A msg c _ (recip_nodup hInv G Mt)]
    simp
  · rw [deliverBroadcast, List.count_append]
    have hzero : (((getGroupRecipients gm G Mt)).filterMap (fun connId =>
        if connId = A then none
        else if connId ∈ registry then some (BEffect.send connId msg)
        else none)).count (BEffect.busEmitBroadcast nodeId A msg) = 0 := by
      rw [List.count_eq_zero]
      intro hmem
      obtain ⟨x, _, hx⟩ := List.mem_filterMap.mp hmem
      by_cases h1 : x = A
      · simp [h1] at hx
      · by_cases h2 : x ∈ registry
        · simp [h1, h2] at hx
        · simp [h1, h2] at hx
    rw [hzero]
    simp
  · intro n c' m' hmem
    rw [deliverBroadcast] at hmem
    rcases List.mem_append.mp hmem with hmem | hmem
    · obtain ⟨x, _, hx⟩ := List.mem_filterMap.mp hmem
      by_cases h1 : x = A
      · simp [h1] at hx
      · by_cases h2 : x ∈ registry
        · simp [h1, h2] at hx
        · simp [h1, h2] at hx
    · rcases List.mem_singleton.mp hmem with h
      cases h
      exact ⟨rfl, rfl, rfl⟩

/-- State used by the witness: agents x, y, z joined group G for "chat". -/
def gmW : GMState :=
  (joinGroup ((joinGroup ((joinGroup emptyGM "x" "G" ["chat"]).1)
    "y" "G" ["chat"]).1) "z" "G" ["chat"]).1

theorem gmW_inv : GMInv gmW :=
  joinGroup_inv (joinGroup_inv (joinGroup_inv inv_empty "x" "G" ["chat"])
    "y" "G" ["chat"]) "z" "G" ["chat"]

/-- Witness: x broadcasts "frame" to G/chat; y gets exactly one copy, the
sender x gets none, and exactly one bus event is emitted. -/
theorem deliverBroadcast_spec_witness :
    (deliverBroadcast String gmW ["x", "y", "z"] "node-1" "x" "G" "chat"
        "frame").count (BEffect.send "y" "frame") = 1 ∧
      (deliverBroadcast String gmW ["x", "y", "z"] "node-1" "x" "G" "chat"
        "frame").count (BEffect.send "x" "frame") = 0 ∧
      (deliverBroadcast String gmW ["x", "y", "z"] "node-1" "x" "G" "chat"
        "frame").count
        (BEffect.busEmitBroadcast "node-1" "x" "frame") = 1 := by
  have h := deliverBroadcast_spec (M := String) gmW_inv ["x", "y", "z"]
    "node-1" "x" "G" "chat" "frame"
  refine ⟨?_, ?_, h.2.1⟩
  · have hy := h.1 "y"
    rw [if_pos (by decide)] at hy
    exact hy
  · have hx := h.1 "x"
    rw [if_neg (by decide)] at hx
    exact hx

/-! ## Agent server pipeline (src/agent/agentServer.js) and control
handlers (src/agent/agentControl.js)

The authenticated-message path is embedded from the `ws.on('message')`
handler: from-identity check, rewrite, dispatch through
`agentRouter.handleMessage`, with the outer catch turning any thrown
exception into `rawSendError(message_failure)` followed by `ws.close()`. -/

/-- Payload fields read by the control handlers.  A field is `none` when it
is absent or not of the type the handler's typeof test expects. -/
structure CtrlPayload where
  group : Option String
  msg_types : Option (List String)
  dest_node_id : Option String
  msg : Option String
  extraKeys : Bool
  deriving Repr, DecidableEq

/-- A schema-validated agent frame as seen by the authenticated path.
`toField` carries `(to.node_id, to.conn_id)` when `msg.to` is present;
`ttl` is `some n` when `msg.ttl` is a number with integral value `n`. -/
structure AFrame where
  ftype : String
  msg_type : String
  msg_id : String
  from_node : String
  from_conn : String
  toField : Option (String × String)
  group : Option String
  ttl : Option Int
  payload : CtrlPayload
  deriving Repr, DecidableEq

/-- Observable effects of the server/router on one frame. -/
inductive SEffect where
  | sendToConn (connId : String) (frame : AFrame)
  | sendDirect (connId : String)
      (from_node from_conn msg_type in_response_to : String)
  | sendControlReply (msg_type status : String)
  | sendError (text : String)
  | rawSendError (etype : String)
  | busEmitDirect
  | busEmitPing
  | busEmitBroadcastE (node conn : String)
  | closeSocket
  | startResumeTimer (connId : String)
  deriving Repr, DecidableEq

/-- Server-side state touched by the embedded handlers: the group manager
and the agent registry (as the list of registered conn ids). -/
structure SrvState where
  gm : GMState
  registry : List String
  deriving Repr, DecidableEq

/-- Result of a handler: the (possibly mutated) state, the exception it
threw (if any — JS errors are carried as their message), and the effects
emitted before the throw. -/
structure HResult where
  state : SrvState
  thrown : Option String
  effects : List SEffect
  deriving Repr, DecidableEq

/-- ASCII hexadecimal digit. -/
def isHexChar (c : Char) : Bool :=
  c.isDigit || ('a' ≤ c && c ≤ 'f') || ('A' ≤ c && c ≤ 'F')

/-- Abstraction of the uuid package's `validate` used by `handlePing`:
canonical 36-char dashed form with hex digits. -/
def uuidValidate (s : String) : Bool :=
  s.length == 36 &&
    (List.range 36).all (fun i =>
      if i = 8 ∨ i = 13 ∨ i = 18 ∨ i = 23 then s.data.getD i ' ' == '-'
      else isHexChar (s.data.getD i ' '))

/-- `handleJoinGroup`: reply `failed` on a non-string group; otherwise call
`groupManager.joinGroup` (whose throw — empty/non-array msg_types or the
cap — propagates past the reply, with the partial state mutation kept) and
reply `ok`. -/
def handleJoinGroup (st : SrvState) (connId : String) (msg : AFrame) : HResult :=
  match msg.payload.group with
  | none => ⟨st, none, [.sendControlReply "join_group_reply" "failed"]⟩
  | some group =>
    match msg.payload.msg_types with
    | none => ⟨st, some "msgTypes must be a non-empty array", []⟩
    | some ts =>
      let r := joinGroup st.gm connId group ts
      match r.2 with
      | some e => ⟨{ st with gm := r.1 }, some e, []⟩
      | none =>
        ⟨{ st with gm := r.1 }, none, [.sendControlReply "join_group_reply" "ok"]⟩

/-- `handleLeaveGroup`. -/
def handleLeaveGroup (st : SrvState) (connId : String) (msg : AFrame) : HResult :=
  match msg.payload.group with
  | none => ⟨st, none, [.sendControlReply "leave_group_reply" "failed"]⟩
  | some group =>
    ⟨{ st with gm := leaveGroup st.gm connId group }, none,
      [.sendControlReply "leave_group_reply" "ok"]⟩

/-- `handlePing`: payload-key, dest uuid, ttl and msg-length checks in
source order; a valid ping emits `outbound:agent_ping`. -/
def handlePing (st : SrvState) (msg : AFrame) : HResult :=
  if msg.payload.extraKeys then
    ⟨st, none, [.sendControlReply "ping_response" "error"]⟩
  else if !(uuidValidate (msg.payload.dest_node_id.getD "")) then
    ⟨st, none, [.sendControlReply "ping_response" "error"]⟩
  else
    match msg.ttl with
    | none => ⟨st, none, [.sendControlReply "ping_response" "error"]⟩
    | some ttl =>
      if ttl < 0 ∨ ttl > 255 then
        ⟨st, none, [.sendControlReply "ping_response" "error"]⟩
      else
        match msg.payload.msg with
        | none => ⟨st, none, [.sendControlReply "ping_response" "error"]⟩
        | some pingMessage =>
          if pingMessage.length > 64 then
            ⟨st, none, [.sendControlReply "ping_response" "error"]⟩
          else ⟨st, none, [.busEmitPing]⟩

/-- `cleanupAgent(conn)`: remove the agent from all groups and unregister
it.  (This is what the disconnect handler is documented to invoke.) -/
def cleanupAgent (st : SrvState) (connId : String) : SrvState :=
  { gm := removeAgentFromAllGroups st.gm connId,
    registry := st.registry.filter (fun c => c ≠ connId) }

/-- `handleDisconnect(conn, msg)`: the source calls `cleanAgent(conn)`, an
identifier that is defined nowhere in agentControl.js (the defined function
is `cleanupAgent`), so the call raises a ReferenceError before any cleanup
or close happens. -/
def handleDisconnect (st : SrvState) (_connId : String) (_msg : AFrame) : HResult :=
  ⟨st, some "ReferenceError: cleanAgent is not defined", []⟩

/-- `processControl(conn, msg)`: dispatch on `msg.msg_type`. -/
def processControl (st : SrvState) (connId : String) (msg : AFrame) : HResult :=
  match msg.msg_type with
  | "join_group" => handleJoinGroup st connId msg
  | "leave_group" => handleLeaveGroup st connId msg
  | "ping_request" => handlePing st msg
  | "disconnect" => handleDisconnect st connId msg
  | other => ⟨st, none, [.sendError ("unknown agent message type: " ++ other)]⟩

/-- `deliverBroadcast` inside the pipeline (same logic as
`Pan.deliverBroadcast`, producing `SEffect`s; an absent `group` key finds no
recipients, as `Map.get(undefined)` would). -/
def deliverBroadcastS (st : SrvState) (nodeId fromConnId : String)
    (msg : AFrame) : List SEffect :=
  (match msg.group with
   | some gid =>
     (getGroupRecipients st.gm gid msg.msg_type).filterMap (fun connId =>
       if connId = fromConnId then none
       else if connId ∈ st.registry then some (SEffect.sendToConn connId msg)
       else none)
   | none => []) ++
    [SEffect.busEmitBroadcastE nodeId fromConnId]

/-- `deliverDirect(fromConn, msg)`: reply an error on a falsy/malformed
`to`; for a local `to.node_id`, look the target up in the registry and call
`targetAgent.send(...)` on it — with no null check, so a missing target
raises a TypeError; otherwise emit `outbound:agent_direct`. -/
def deliverDirect (st : SrvState) (nodeId fromConnId : String)
    (msg : AFrame) : HResult :=
  match msg.toField with
  | none => ⟨st, none, [.sendError "invalid \"to\" field in direct message"]⟩
  | some (toNode, toConn) =>
    if toNode = "" ∨ toConn = "" then
      ⟨st, none, [.sendError "invalid \"to\" field in direct message"]⟩
    else if toNode = nodeId then
      if toConn ∈ st.registry then
        ⟨st, none,
          [.sendDirect toConn nodeId fromConnId msg.msg_type msg.msg_id]⟩
      else
        ⟨st, some "TypeError: cannot read properties of undefined", []⟩
    else
      ⟨st, none, [.busEmitDirect]⟩

/-- `agentRouter.handleMessage(conn, msg)` for an authenticated agent. -/
def handleMessage (st : SrvState) (nodeId connId : String) (msg : AFrame) :
    HResult :=
  match msg.ftype with
  | "control" => processControl st connId msg
  | "broadcast" => ⟨st, none, deliverBroadcastS st nodeId connId msg⟩
  | "direct" => deliverDirect st nodeId connId msg
  | other => ⟨st, none, [.sendError ("Unknown message type: " ++ other)]⟩

/-- The authenticated part of the server's per-frame handler: verify the
claimed `from` identity (closing on mismatch), rewrite `from` to the
authoritative identity, route, and — in the outer catch — turn any thrown
error into a `message_failure` error plus `ws.close()`. -/
def processAuthedFrame (st : SrvState) (nodeId connId : String)
    (msg : AFrame) : SrvState × List SEffect :=
  if msg.from_conn ≠ connId then (st, [.closeSocket])
  else if msg.from_node ≠ nodeId then (st, [.closeSocket])
  else
    let r := handleMessage st nodeId connId
      { msg with from_node := nodeId, from_conn := connId }
    match r.thrown with
    | none => (r.state, r.effects)
    | some _ =>
      (r.state, r.effects ++ [.rawSendError "message_failure", .closeSocket])

/-- The `ws.on('close')` handler: when the closing socket's conn is still
in the agent registry, start the 2-minute resume timer (which will run
`cleanupAgent` on expiry); otherwise do nothing. -/
def onSocketClose (st : SrvState) (connId : String) : List SEffect :=
  if connId ∈ st.registry then [.startResumeTimer connId] else []

/-- C4: direct-message target-not-found behavior of the code.  For a valid
direct frame addressed to the local node with an unregistered target
conn_id, `deliverDirect` dereferences the undefined registry lookup, the
thrown TypeError reaches the server's catch, and the server sends a
`message_failure` error AND CLOSES the sender's socket — contradicting the
claim (and §7 of the spec) that the sender is answered with an error
without being closed. -/
theorem direct_target_not_found_closes (st : SrvState) (nodeId connId : String)
    (msg : AFrame) (toConn : String)
    (hto : msg.toField = some (nodeId, toConn))
    (hfc : msg.from_conn = connId) (hfn : msg.from_node = nodeId)
    (htype : msg.ftype = "direct")
    (hnn : nodeId ≠ "") (htc : toConn ≠ "")
    (hreg : toConn ∉ st.registry) :
    processAuthedFrame st nodeId connId msg =
      (st, [SEffect.rawSendError "message_failure", SEffect.closeSocket]) := by
  rw [processAuthedFrame]
  rw [if_neg (by simp [hfc]), if_neg (by simp [hfn])]
  have hroute : handleMessage st nodeId connId
      { msg with from_node := nodeId, from_conn := connId } =
        ⟨st, some "TypeError: cannot read properties of undefined", []⟩ := by
    rw [handleMessage]
    simp only [htype]
    rw [deliverDirect]
    simp only [hto]
    rw [if_neg (by simp [hnn, htc])]
    simp [hreg]
  rw [hroute]
  rfl

/-- Witness for the C4 theorem at a concrete input. -/
theorem direct_target_not_found_closes_witness :
    processAuthedFrame ⟨emptyGM, ["c1"]⟩ "node-1" "c1"
        ⟨"direct", "test.direct", "m-1", "node-1", "c1",
          some ("node-1", "c-unknown"), none, some 5,
          ⟨none, none, none, none, false⟩⟩ =
      (⟨emptyGM, ["c1"]⟩,
        [SEffect.rawSendError "message_failure", SEffect.closeSocket]) :=
  direct_target_not_found_closes ⟨emptyGM, ["c1"]⟩ "node-1" "c1" _ "c-unknown"
    rfl rfl rfl rfl (by decide) (by decide) (by decide)

/-- C5: disconnect-control behavior of the code.  `handleDisconnect` calls
the undefined identifier `cleanAgent`, so processing a disconnect control
frame performs NO cleanup (group subscriptions and registry entry are
untouched), and the catch-all sends `message_failure` and closes the
socket; the close handler then still finds the conn registered and starts
the 2-minute resume timer instead of doing nothing. -/
theorem disconnect_control_no_cleanup (st : SrvState) (nodeId connId : String)
    (msg : AFrame)
    (hfc : msg.from_conn = connId) (hfn : msg.from_node = nodeId)
    (htype : msg.ftype = "control") (hmt : msg.msg_type = "disconnect")
    (hreg : connId ∈ st.registry) :
    processAuthedFrame st nodeId connId msg =
        (st, [SEffect.rawSendError "message_failure", SEffect.closeSocket]) ∧
      onSocketClose st connId = [SEffect.startResumeTimer connId] := by
  constructor
  · rw [processAuthedFrame]
    rw [if_neg (by simp [hfc]), if_neg (by simp [hfn])]
    have hroute : handleMessage st nodeId connId
        { msg with from_node := nodeId, from_conn := connId } =
          ⟨st, some "ReferenceError: cleanAgent is not defined", []⟩ := by
      rw [handleMessage]
      simp only [htype]
      rw [processControl]
      simp only [hmt]
      rfl
    rw [hroute]
    rfl
  · rw [onSocketClose, if_pos hreg]

/-- Witness for the C5 theorem at a concrete input. -/
theorem disconnect_control_no_cleanup_witness :
    processAuthedFrame ⟨emptyGM, ["c1"]⟩ "node-1" "c1"
          ⟨"control", "disconnect", "m-2", "node-1", "c1", none, none, some 0,
            ⟨none, none, none, none, false⟩⟩ =
        (⟨emptyGM, ["c1"]⟩,
          [SEffect.rawSendError "message_failure", SEffect.closeSocket]) ∧
      onSocketClose ⟨emptyGM, ["c1"]⟩ "c1" =
        [SEffect.startResumeTimer "c1"] :=
  disconnect_control_no_cleanup ⟨emptyGM, ["c1"]⟩ "node-1" "c1" _
    rfl rfl rfl rfl (by decide)

/-! ## Schema-error counting (src/agent/agentServer.js, handleWebSocket) -/

/-- The `spam_protection` config subsection; a field is `none` when the key
is not configured. -/
structure SpamConfig where
  window_seconds : Option Nat
  message_limit : Option Nat
  disconnect_threshold : Option Nat
  error_reset_window : Option Nat
  deriving Repr, DecidableEq

/-- `MAX_ERRORS_BEFORE_DISCONNECT = spamConfig.disconnect_threshold ?? 5`
(line 38): the invalid-message overflow limit is read from the spam guard's
`disconnect_threshold` key. -/
def MAX_ERRORS_BEFORE_DISCONNECT (cfg : SpamConfig) : Nat :=
  cfg.disconnect_threshold.getD 5

/-- `SPAM_ERROR_RESET_WINDOW = spamConfig.error_reset_window * 1000 ?? 300000`
(line 37).  JS precedence multiplies first: when `error_reset_window` is
unset the product is `undefined * 1000 = NaN`, and `NaN ?? 300000` keeps
NaN — so the `?? 300000` default can never apply.  `none` embeds NaN. -/
def SPAM_ERROR_RESET_WINDOW (cfg : SpamConfig) : Option Nat :=
  cfg.error_reset_window.map (fun w => w * 1000)

/-- Lines 121-124, run while processing a schema-valid frame: reset
`msg_errors` when positive and the last error is older than the window.
A NaN window (`none`) makes the `>` comparison false, so no reset. -/
def resetErrorsOnValidFrame (cfg : SpamConfig)
    (msg_errors now lastErrorTimestamp : Nat) : Nat :=
  match SPAM_ERROR_RESET_WINDOW cfg with
  | some w =>
    if msg_errors > 0 ∧ now - lastErrorTimestamp > w then 0 else msg_errors
  | none => msg_errors

/-- Modelled from the spec: the reset window is `error_reset_window`
(seconds, scaled to ms) defaulting to 300000 ms, and a valid frame arriving
after the window resets the counter.  The repository has no working version
of this default; this definition follows the spec sentence it comes from. -/
def specResetErrors (cfg : SpamConfig)
    (msg_errors now lastErrorTimestamp : Nat) : Nat :=
  if msg_errors > 0 ∧
      now - lastErrorTimestamp > (cfg.error_reset_window.map (· * 1000)).getD 300000
  then 0 else msg_errors

/-- C8: with `error_reset_window` unconfigured the code's reset window is
NaN, not 300000 ms: the counter is never reset, for any elapsed time —
while the spec-modelled behavior resets it (e.g. at 400001 ms after the
last error with one recorded error). -/
theorem error_reset_window_default_broken :
    (∀ e now last,
        resetErrorsOnValidFrame ⟨none, none, none, none⟩ e now last = e) ∧
      SPAM_ERROR_RESET_WINDOW ⟨none, none, none, none⟩ = none ∧
      specResetErrors ⟨none, none, none, none⟩ 1 400001 0 = 0 ∧
      resetErrorsOnValidFrame ⟨none, none, none, none⟩ 1 400001 0 = 1 := by
  refine ⟨fun e now last => rfl, rfl, by decide, rfl⟩

/-- Lines 96-118: processing a schema-invalid frame increments
`msg_errors`, sends an `invalid_message` error, and — when the new count
exceeds `MAX_ERRORS_BEFORE_DISCONNECT` — sends `too_many_bad_messages` and
closes the socket. -/
def processInvalidFrame (cfg : SpamConfig) (msg_errors : Nat) :
    Nat × List SEffect :=
  let e' := msg_errors + 1
  if e' > MAX_ERRORS_BEFORE_DISCONNECT cfg then
    (e', [.rawSendError "invalid_message",
          .rawSendError "too_many_bad_messages", .closeSocket])
  else
    (e', [.rawSendError "invalid_message"])

/-- C10: the invalid-message overflow close triggers exactly when the
incremented error count exceeds `spam_protection.disconnect_threshold`
(default 5), the limit being read from the spam guard's
`disconnect_threshold` key; under the default configuration the sixth
consecutive schema-invalid frame (count going 5 → 6) closes the socket and
the first five do not. -/
theorem invalid_frame_close_threshold :
    (∀ cfg e, (processInvalidFrame cfg e).1 = e + 1 ∧
        (SEffect.closeSocket ∈ (processInvalidFrame cfg e).2 ↔
          e + 1 > MAX_ERRORS_BEFORE_DISCONNECT cfg)) ∧
      (∀ cfg, MAX_ERRORS_BEFORE_DISCONNECT cfg =
        cfg.disconnect_threshold.getD 5) ∧
      ∀ e, SEffect.closeSocket ∈
          (processInvalidFrame ⟨none, none, none, none⟩ e).2 ↔ 5 ≤ e := by
  refine ⟨fun cfg e => ⟨?_, ?_⟩, fun cfg => rfl, fun e => ?_⟩
  · rw [processInvalidFrame]
    by_cases h : e + 1 > MAX_ERRORS_BEFORE_DISCONNECT cfg <;> simp [h]
  · rw [processInvalidFrame]
    by_cases h : e + 1 > MAX_ERRORS_BEFORE_DISCONNECT cfg <;> simp [h]
  · rw [processInvalidFrame]
    by_cases h : e + 1 > MAX_ERRORS_BEFORE_DISCONNECT ⟨none, none, none, none⟩
    · simp only [h, if_pos trivial]
      simp [MAX_ERRORS_BEFORE_DISCONNECT] at h
      simp
      omega
    · simp only [h]
      simp [MAX_ERRORS_BEFORE_DISCONNECT] at h
      simp
      omega

/-! ## Frame validators (src/utils/validators.js) -/

/-- The `ttl` field of an inbound frame, at the granularity the validator
distinguishes them by.  `Number(msg.ttl)` per constructor: a number keeps
its value (`intNum` for integral values, `nonIntNum` for others); a string
of decimal digits parses to its value (strings with other shapes — hex,
whitespace, empty — are outside this model; for decimal non-integers and
non-numeric strings the validator's verdict coincides with `nonIntNum`);
booleans give 1/0; `null` gives 0; an absent field gives NaN. -/
inductive TtlVal where
  | intNum (n : Int)
  | nonIntNum
  | digitStr (s : String)
  | boolVal (b : Bool)
  | nullVal
  | absent
  deriving Repr, DecidableEq

/-- Decimal parse of a digit string (the value `Number` gives such
strings). -/
def digitsToNat? (s : String) : Option Nat :=
  if s.data ≠ [] ∧ s.data.all Char.isDigit then
    some (s.data.foldl (fun acc c => acc * 10 + (c.toNat - '0'.toNat)) 0)
  else none

/-- `Number(v)` when its value is an integer; `none` when it is NaN or has
a fractional part (the cases `Number.isInteger` rejects). -/
def jsNumberInt : TtlVal → Option Int
  | .intNum n => some n
  | .nonIntNum => none
  | .digitStr s => (digitsToNat? s).map Int.ofNat
  | .boolVal b => some (if b then 1 else 0)
  | .nullVal => some 0
  | .absent => none

/-- The spec's reading of the ttl precondition: the field is itself an
integer (a JS number with integral value). -/
def ttlIsIntegerValue : TtlVal → Bool
  | .intNum _ => true
  | _ => false

/-- `msg.from`: each sub-field is `some s` iff it is the string `s`. -/
structure VFrom where
  node_id : Option String
  conn_id : Option String
  deriving Repr, DecidableEq

/-- `msg.to`. -/
structure VTo where
  node_id : Option String
  conn_id : Option String
  deriving Repr, DecidableEq

/-- An inbound frame as the validators inspect it.  A field is `none` when
absent or not of the type the corresponding typeof test expects;
`payload_is_object` embeds `typeof payload === 'object' && payload !== null`. -/
structure VFrame where
  msg_id : Option String
  fromField : Option VFrom
  msg_type : Option String
  payload_is_object : Bool
  ttl : TtlVal
  vtype : Option String
  toField : Option VTo
  group : Option String
  deriving Repr, DecidableEq

/-- `isFastUuid`: 36 chars with dashes at positions 8, 13, 18, 23. -/
def isFastUuid (s : String) : Bool :=
  s.length == 36 && s.data.getD 8 ' ' == '-' && s.data.getD 13 ' ' == '-' &&
    s.data.getD 18 ' ' == '-' && s.data.getD 23 ' ' == '-'

def MAX_TTL : Int := 255
def MIN_TTL : Int := 0
def MAX_AGENT_TTL : Int := 1
def MIN_AGENT_TTL : Int := 0

/-- One character of the `VALID_MSG_TYPE` class `[\w.@]`. -/
def isMsgTypeChar (c : Char) : Bool :=
  c.isAlphanum || c == '_' || c == '.' || c == '@'

/-- `VALID_MSG_TYPE = /^[\w.@]+$/u`. -/
def matchesMsgTypeRegex (s : String) : Bool :=
  !s.isEmpty && s.data.all isMsgTypeChar

/-- `isValidBaseFields(msg, { isAgent })`: the early-return-false checks of
the source written as one short-circuit conjunction.  The ttl check is
`Number(msg.ttl)` being an integer within `[minTtl, maxTtl]`. -/
def isValidBaseFields (msg : VFrame) (isAgent : Bool) : Bool :=
  (match msg.msg_id with
   | some mid => isFastUuid mid
   | none => false) &&
  (match msg.fromField with
   | some f =>
     (match f.node_id with
      | some fn => isFastUuid fn
      | none => false) && f.conn_id.isSome
   | none => false) &&
  (match msg.msg_type with
   | some mt => decide (mt.length ≤ 64) && matchesMsgTypeRegex mt
   | none => false) &&
  msg.payload_is_object &&
  (jsNumberInt msg.ttl).any (fun ttl =>
    decide ((if isAgent then MIN_AGENT_TTL else MIN_TTL) ≤ ttl ∧
      ttl ≤ (if isAgent then MAX_AGENT_TTL else MAX_TTL)))

/-- `VALID_AGENT_MESSAGE_TYPES` from constants/constants.js. -/
def VALID_AGENT_MESSAGE_TYPES : List String := ["direct", "broadcast", "agent_control"]

/-- `validateAgentMessage(msg)`: membership in the agent type list, then
the per-type extra-field checks (note the switch has a `control` case that
the membership gate makes unreachable). -/
def validateAgentMessage (msg : VFrame) : Bool :=
  match msg.vtype with
  | none => false
  | some t =>
    if !(VALID_AGENT_MESSAGE_TYPES.contains t) then false
    else if t = "direct" then
      match msg.toField with
      | none => false
      | some toObj =>
        (match toObj.node_id with
         | some tn => isFastUuid tn
         | none => false) && toObj.conn_id.isSome
    else if t = "broadcast" then
      match msg.group with
      | none => false
      | some gr => gr.length == 36
    else if t = "control" then true
    else false

/-- `validateIncomingAgentMessage(msg)`. -/
def validateIncomingAgentMessage (msg : VFrame) : Bool :=
  isValidBaseFields msg false && validateAgentMessage msg

/-- The C9 counterexample frame: fully well-formed except that its ttl is
the string "5". -/
def c9Frame : VFrame :=
  { msg_id := some "aaaaaaaa-bbbb-cccc-dddd-eeeeeeeeeeee",
    fromField := some ⟨some "aaaaaaaa-bbbb-cccc-dddd-eeeeeeeeeeee", some "c1"⟩,
    msg_type := some "test.direct",
    payload_is_object := true,
    ttl := TtlVal.digitStr "5",
    vtype := some "direct",
    toField := some ⟨some "aaaaaaaa-bbbb-cccc-dddd-eeeeeeeeeeee", some "c2"⟩,
    group := none }

/-- C9 counterexample: a frame whose ttl is the string "5" — not an integer
value — is ACCEPTED by `validateIncomingAgentMessage`, because the
validator first coerces with `Number(msg.ttl)`; the claim that such frames
are rejected is false on the code. -/
theorem ttl_string_accepted_counterexample :
    ttlIsIntegerValue c9Frame.ttl = false ∧
      validateIncomingAgentMessage c9Frame = true := by
  exact ⟨rfl, by decide⟩

/-- C9 amended: `isValidBaseFields` accepts a frame only if
`Number(frame.ttl)` is an integer in the allowed range ([0,255] for agent
frames, [0,1] for special-agent frames); values that coerce to an in-range
integer — numeric strings such as "5", booleans, null — pass the check. -/
theorem isValidBaseFields_ttl_coerced (msg : VFrame) (isAgent : Bool)
    (h : isValidBaseFields msg isAgent = true) :
    ∃ n : Int, jsNumberInt msg.ttl = some n ∧
      (if isAgent then MIN_AGENT_TTL else MIN_TTL) ≤ n ∧
      n ≤ (if isAgent then MAX_AGENT_TTL else MAX_TTL) := by
  rw [isValidBaseFields] at h
  simp only [Bool.and_eq_true] at h
  have httl := h.2
  have hgen : ∀ o : Option Int,
      (o.any (fun ttl =>
        decide ((if isAgent then MIN_AGENT_TTL else MIN_TTL) ≤ ttl ∧
          ttl ≤ (if isAgent then MAX_AGENT_TTL else MAX_TTL)))) = true →
      ∃ n : Int, o = some n ∧
        (if isAgent then MIN_AGENT_TTL else MIN_TTL) ≤ n ∧
        n ≤ (if isAgent then MAX_AGENT_TTL else MAX_TTL) := by
    intro o ho
    cases o with
    | none => simp [Option.any] at ho
    | some n =>
      exact ⟨n, rfl, of_decide_eq_true (by simpa [Option.any] using ho)⟩
  obtain ⟨n, hsome, hlo, hhi⟩ := hgen (jsNumberInt msg.ttl) httl
  exact ⟨n, hsome, hlo, hhi⟩

/-- Witness for the amended C9 theorem at the c9Frame (isAgent = false). -/
theorem isValidBaseFields_ttl_coerced_witness :
    ∃ n : Int, jsNumberInt c9Frame.ttl = some n ∧
      (if false then MIN_AGENT_TTL else MIN_TTL) ≤ n ∧
      n ≤ (if false then MAX_AGENT_TTL else MAX_TTL) :=
  isValidBaseFields_ttl_coerced c9Frame false (by decide)

/-! ## Agent auth manager (agentAuthManager.js) -/

/-- The result object an auth method's promise resolves with. -/
structure AuthResultM where
  success : Bool
  error : Option String
  deriving Repr, DecidableEq

/-- The outcome of dispatching one auth attempt: either the method's
promise wins `Promise.race` and resolves with a result (success or not),
or execution lands in the catch block — the method rejected/threw, or the
per-attempt `timeout_ms` timer rejected first ("Auth timeout"). -/
inductive AttemptOutcome where
  | res (r : AuthResultM)
  | thrown (e : String)
  deriving Repr, DecidableEq

/-- The auth-manager configuration fields `attemptAuth` reads. -/
structure AuthConfig where
  order : List String
  max_tries : Nat
  deriving Repr, DecidableEq

/-- `attemptAuth(authRequestId, payload)` from a pending request with
`tries` attempts already counted; `behave i` is the outcome of the attempt
dispatched when `pending.tries = i`.  Returns the result passed to
`finishAuthRequest` (hence to the callback) and the final value of
`pending.tries`.  Mirrors the source: `methodName = config.order[tries]`
(a missing entry finalizes "No auth methods left"); then `tries++`; a
resolved `Promise.race` finalizes immediately with the resolved result;
only the catch path retries, and only while `tries < max_tries`, else it
finalizes failure with the caught error. -/
def attemptAuth (cfg : AuthConfig) (behave : Nat → AttemptOutcome)
    (tries : Nat) : AuthResultM × Nat :=
  match cfg.order.get? tries with
  | none => (⟨false, some "No auth methods left"⟩, tries)
  | some _ =>
    match behave tries with
    | .res r => (r, tries + 1)
    | .thrown e =>
      if tries + 1 < cfg.max_tries then
        attemptAuth cfg behave (tries + 1)
      else
        (⟨false, some e⟩, tries + 1)
  termination_by cfg.max_tries - tries
  decreasing_by simp_wf; omega

/-- `submitAuthRequest` starts with `tries = 0`. -/
def submitAuthRequest (cfg : AuthConfig) (behave : Nat → AttemptOutcome) :
    AuthResultM × Nat :=
  attemptAuth cfg behave 0

/-- The C6 counterexample behavior: the first method resolves with
`success:false / Access Denied`; the second method would succeed. -/
def c6Behave : Nat → AttemptOutcome := fun t =>
  if t = 0 then .res ⟨false, some "Access Denied"⟩ else .res ⟨true, none⟩

/-- C6 counterexample: with order ["local", "special-agent"] and
max_tries = 2, a first method that RESOLVES with success:false finalizes
the request immediately — the callback gets that failure after a single
attempt, although tries (1) < max_tries (2), a next method exists in the
order, and it would have succeeded.  The claim that a resolved
`success:false` counts a try and retries the next method is false on the
code (only rejections and timeouts retry). -/
theorem auth_resolved_failure_no_retry :
    submitAuthRequest ⟨["local", "special-agent"], 2⟩ c6Behave =
        (⟨false, some "Access Denied"⟩, 1) ∧
      (1 : Nat) < 2 ∧
      (["local", "special-agent"] : List String).get? 1 = some "special-agent" ∧
      c6Behave 1 = .res ⟨true, none⟩ := by
  refine ⟨?_, by decide, rfl, rfl⟩
  rw [submitAuthRequest, attemptAuth]
  rfl

/-- C6 amended: one `attemptAuth` step.  A try is dispatched per index in
`config.order` and counted via `tries`; if the method's promise RESOLVES —
with success or failure alike — the result is finalized at once and the
callback runs; only a rejected attempt (method threw / rejected, or the
per-attempt timeout fired first) retries, and only while
`tries < max_tries`, the next method in order being selected because
`order` is indexed by the incremented try counter; an exhausted order
finalizes "No auth methods left", an exhausted try budget finalizes with
the caught error. -/
theorem attemptAuth_step (cfg : AuthConfig) (behave : Nat → AttemptOutcome)
    (tries : Nat) :
    (cfg.order.get? tries = none →
        attemptAuth cfg behave tries =
          (⟨false, some "No auth methods left"⟩, tries)) ∧
      (∀ m r, cfg.order.get? tries = some m → behave tries = .res r →
        attemptAuth cfg behave tries = (r, tries + 1)) ∧
      (∀ m e, cfg.order.get? tries = some m → behave tries = .thrown e →
        tries + 1 < cfg.max_tries →
        attemptAuth cfg behave tries = attemptAuth cfg behave (tries + 1)) ∧
      (∀ m e, cfg.order.get? tries = some m → behave tries = .thrown e →
        ¬tries + 1 < cfg.max_tries →
        attemptAuth cfg behave tries = (⟨false, some e⟩, tries + 1)) := by
  refine ⟨?_, ?_, ?_, ?_⟩
  · intro hnone
    rw [attemptAuth, hnone]
  · intro m r hsome hres
    rw [attemptAuth, hsome, hres]
  · intro m e hsome hth hlt
    rw [attemptAuth, hsome, hth]
    simp [hlt]
  · intro m e hsome hth hge
    rw [attemptAuth, hsome, hth]
    simp [hge]

/-- Witness for the amended C6 theorem: a single resolved success
finalizes after one attempt. -/
theorem attemptAuth_step_witness :
    attemptAuth ⟨["local"], 2⟩ (fun _ => AttemptOutcome.res ⟨true, none⟩) 0 =
      (⟨true, none⟩, 1) :=
  (attemptAuth_step ⟨["local"], 2⟩ (fun _ => AttemptOutcome.res ⟨true, none⟩)
    0).2.1 "local" ⟨true, none⟩ rfl rfl

/-! ## Peer handshake issuer uniqueness (peerServer.js handleConnection,
peerRegistry.js registerPeer) -/

/-- The `details` stored on a registered PeerConnection: the issuer
identity (`vouchsafe_id = trustResult.decoded.iss`). -/
structure PeerEntry where
  vouchsafe_id : String
  deriving Repr, DecidableEq

/-- The peer registry map `node_id → peer`; `registerPeer` is an
unconditional `Map.set`. -/
abbrev PeerReg := List (String × PeerEntry)

/-- Effects of the peer-handshake path. -/
inductive PEffect where
  | sendAuthFailed
  | closeSocket
  | registered (nodeId : String)
  deriving Repr, DecidableEq

/-- The trust-check portion of `handleConnection` for a validated
`peer_control`/`hello` frame (part_002 lines 337-394): when
`isTokenTrusted` answers trusted, look up `getPeer` under the token's
claimed `node_id`; an existing peer whose stored `vouchsafe_id` differs
from the token's issuer throws, and the catch sends `auth.failed` and
closes, leaving the registry unchanged; otherwise a PeerConnection is
registered (under `authPayload.node_id`) with the issuer stored in its
details.  An untrusted result sends `auth.failed` and closes. -/
def handlePeerHello (reg : PeerReg) (payloadNodeId tokenNodeId iss : String)
    (trusted : Bool) : PeerReg × List PEffect :=
  if trusted then
    match mapGet reg tokenNodeId with
    | some existing =>
      if existing.vouchsafe_id ≠ iss then
        (reg, [.sendAuthFailed, .closeSocket])
      else
        (mapSet reg payloadNodeId ⟨iss⟩, [.registered payloadNodeId])
    | none => (mapSet reg payloadNodeId ⟨iss⟩, [.registered payloadNodeId])
  else
    (reg, [.sendAuthFailed, .closeSocket])

/-- C7: peer issuer-uniqueness.  (i) On a trusted handshake, if the
registry already holds a peer for the claimed node_id under a different
issuer, the connection is rejected — `auth.failed` then close — and the
registry is unchanged.  (ii) Consequently, for two handshakes claiming the
same node_id (payload and token agreeing, as a well-formed peer sends)
with different issuers into a registry not yet holding that node_id: the
first registers, the second is rejected and the first issuer's entry is
untouched. -/
theorem peer_issuer_uniqueness (reg : PeerReg) (payloadN tokenN iss : String)
    (entry : PeerEntry) (hold : mapGet reg tokenN = some entry)
    (hne : entry.vouchsafe_id ≠ iss) :
    handlePeerHello reg payloadN tokenN iss true =
        (reg, [PEffect.sendAuthFailed, PEffect.closeSocket]) ∧
      ∀ (reg0 : PeerReg) (N I1 I2 : String), I1 ≠ I2 →
        mapGet reg0 N = none →
        handlePeerHello (handlePeerHello reg0 N N I1 true).1 N N I2 true =
            ((handlePeerHello reg0 N N I1 true).1,
              [PEffect.sendAuthFailed, PEffect.closeSocket]) ∧
          mapGet (handlePeerHello reg0 N N I1 true).1 N = some ⟨I1⟩ := by
  constructor
  · rw [handlePeerHello, if_pos rfl, hold]
    simp [hne]
  · intro reg0 N I1 I2 hI hN
    have hreg1 : (handlePeerHello reg0 N N I1 true).1 = mapSet reg0 N ⟨I1⟩ := by
      rw [handlePeerHello, if_pos rfl, hN]
    have hlook : mapGet (handlePeerHello reg0 N N I1 true).1 N = some ⟨I1⟩ := by
      rw [hreg1]
      exact mapGet_set_self reg0 N ⟨I1⟩
    refine ⟨?_, hlook⟩
    rw [handlePeerHello, if_pos rfl, hlook]
    simp [hI]

/-- Witness for the C7 theorem at a concrete registry. -/
theorem peer_issuer_uniqueness_witness :
    handlePeerHello [("N1", ⟨"urn:alice"⟩)] "N1" "N1" "urn:bob" true =
        ([("N1", ⟨"urn:alice"⟩)],
          [PEffect.sendAuthFailed, PEffect.closeSocket]) ∧
      ∀ (reg0 : PeerReg) (N I1 I2 : String), I1 ≠ I2 →
        mapGet reg0 N = none →
        handlePeerHello (handlePeerHello reg0 N N I1 true).1 N N I2 true =
            ((handlePeerHello reg0 N N I1 true).1,
              [PEffect.sendAuthFailed, PEffect.closeSocket]) ∧
          mapGet (handlePeerHello reg0 N N I1 true).1 N = some ⟨I1⟩ :=
  peer_issuer_uniqueness [("N1", ⟨"urn:alice"⟩)] "N1" "N1" "urn:bob"
    ⟨"urn:alice"⟩ (by decide) (by decide)

end Pan
